import Mathlib

/-!
Verification development for the Antigravity Quota Monitor backend (app.py).

The Python source is shallowly embedded: untrusted JSON-like values become the
inductive type `PyVal`; Python code that can raise becomes functions into
`Except String _`; the reusable-client / cached-connection state of
`ConnectionManager` becomes the record `MgrState`; the `/api/quota` route
becomes the state-passing function `api_quota` driven by an oracle `Script`
that supplies the results of process detection and of the two possible
fetch attempts.  Rational numbers model Python floats (JSON numbers are
decimal, so the observable behaviour - printing and the one-decimal rounding
used by the code - agrees on the reachable inputs).
-/

namespace AQM

/-- A Python value as produced by `resp.json()`: the untrusted nested data
the normalizer works on.  `noneV` is Python `None`; `num` models a float. -/
inductive PyVal where
  | noneV : PyVal
  | bool : Bool → PyVal
  | int : Int → PyVal
  | num : ℚ → PyVal
  | str : String → PyVal
  | list : List PyVal → PyVal
  | dict : List (String × PyVal) → PyVal

/-- Python truthiness (`if not x`): `None`, `False`, `0`, `0.0`, `""`, `[]`,
`{ }` are falsy, everything else truthy. -/
def truthy : PyVal → Bool
  | PyVal.noneV => false
  | PyVal.bool b => b
  | PyVal.int n => decide (n ≠ 0)
  | PyVal.num q => decide (q ≠ 0)
  | PyVal.str s => decide (s ≠ "")
  | PyVal.list xs => !xs.isEmpty
  | PyVal.dict kvs => !kvs.isEmpty

/-- Is this Python `None`? (`x is None`). -/
def isNoneV : PyVal → Bool
  | PyVal.noneV => true
  | _ => false

/-- The numeric value of a Python object, when arithmetic on it is legal:
ints, floats and bools (False = 0, True = 1) are numbers; anything else
makes `round(x * 100, 1)`-style expressions raise. -/
def asNum : PyVal → Option ℚ
  | PyVal.int n => some (n : ℚ)
  | PyVal.num q => some q
  | PyVal.bool b => some (if b then 1 else 0)
  | _ => Option.none

/-- `dict.get(k, d)` on the underlying association list (first binding wins). -/
def dictGet (kvs : List (String × PyVal)) (k : String) (d : PyVal) : PyVal :=
  match kvs.find? (fun kv => kv.1 = k) with
  | some kv => kv.2
  | Option.none => d

/-- `x.get(k, d)`: succeeds on dicts, raises `AttributeError` otherwise. -/
def pyGet (v : PyVal) (k : String) (d : PyVal) : Except String PyVal :=
  match v with
  | PyVal.dict kvs => Except.ok (dictGet kvs k d)
  | _ => Except.error ("AttributeError: object has no attribute get")

/-- `for m in x`: lists iterate their elements, strings their characters,
dicts their keys; other values raise `TypeError`. -/
def pyIter : PyVal → Except String (List PyVal)
  | PyVal.list xs => Except.ok xs
  | PyVal.str s => Except.ok (s.data.map (fun c => PyVal.str (String.mk [c])))
  | PyVal.dict kvs => Except.ok (kvs.map (fun kv => PyVal.str kv.1))
  | _ => Except.error ("TypeError: object is not iterable")

/-- Truncation toward zero, as Python's `int(float)` does. -/
def ratTrunc (q : ℚ) : Int :=
  if 0 ≤ q then ⌊q⌋ else -⌊-q⌋

/-- `int(s)` on a string: optional surrounding whitespace, an optional sign
and a nonempty digit run; anything else raises `ValueError`. -/
def strToInt : String → Option Int := fun s =>
  let chars := s.data.dropWhile Char.isWhitespace
  let chars := (chars.reverse.dropWhile Char.isWhitespace).reverse
  let (sign, digits) :=
    match chars with
    | '-' :: rest => ((-1 : Int), rest)
    | '+' :: rest => ((1 : Int), rest)
    | rest => ((1 : Int), rest)
  if digits = [] ∨ ¬ digits.all Char.isDigit then Option.none
  else some (sign * (digits.foldl (fun acc c => 10 * acc + (c.toNat - 48)) 0 : Nat))

/-- Python's `int(x)` builtin: ints pass through, floats truncate toward
zero, bools become 0/1, strings are parsed; other types raise. -/
def pyInt : PyVal → Option Int
  | PyVal.int n => some n
  | PyVal.num q => some (ratTrunc q)
  | PyVal.bool b => some (if b then 1 else 0)
  | PyVal.str s => strToInt s
  | _ => Option.none

/-! String representations.  The pool-grouping key of
`parse_quota_response` is the f-string `f"{reset}|{fraction}"`, so we model
Python's `str()` on the values that can reach it.  All representations are
built as character lists, which keeps the later no-bar/injectivity
arguments purely list-theoretic. -/

/-- The ten decimal digit characters. -/
def decDigits : List Char := ['0', '1', '2', '3', '4', '5', '6', '7', '8', '9']

/-- The decimal digit character for `n % 10`. -/
def digitChar (n : Nat) : Char := decDigits.getD (n % 10) ('0')

/-- Decimal digits of a natural number, most significant first. -/
def natChars (n : Nat) : List Char :=
  if _h : n < 10 then [digitChar n]
  else natChars (n / 10) ++ [digitChar (n % 10)]
  decreasing_by exact Nat.div_lt_self (by omega) (by omega)

/-- `str(int)`. -/
def intChars (n : Int) : List Char :=
  if n < 0 then '-' :: natChars n.natAbs else natChars n.natAbs

/-- `10 ^ k`. -/
def pow10 : Nat → Nat
  | 0 => 1
  | k + 1 => 10 * pow10 k

/-- Least `k ≤ 40` with `den ∣ 10 ^ k`, if any: the decimal exponent of a
decimal-representable rational. -/
def decExp (den : Nat) : Option Nat :=
  (List.range 41).find? (fun k => pow10 k % den = 0)

/-- Drop trailing `'0'` characters but keep at least one digit. -/
def stripZeros (l : List Char) : List Char :=
  if (l.reverse.dropWhile (fun c => c = '0')).isEmpty then ['0']
  else (l.reverse.dropWhile (fun c => c = '0')).reverse

/-- The fractional digits: `fp` zero-padded to width `k`, trailing zeros
stripped (at least one digit, so `str(1.0) = "1.0"`). -/
def fracChars (k : Nat) (fp : Nat) : List Char :=
  stripZeros (List.replicate (k - (natChars fp).length) ('0') ++ natChars fp)

/-- `str(float)` for the rationals modelling floats.  Decimal-representable
values print as Python prints the corresponding float (`0.5`, `1.0`,
`-3.25`); other rationals (unreachable from JSON input) fall back to a
fraction notation. -/
def ratScaled (q : ℚ) (k : Nat) : Nat := q.num.natAbs * pow10 k / q.den

def ratChars (q : ℚ) : List Char :=
  (if q < 0 then ['-'] else []) ++
    match decExp |q|.den with
    | some k =>
        natChars (ratScaled |q| k / pow10 k) ++
          '.' :: fracChars k (ratScaled |q| k % pow10 k)
    | Option.none => natChars (|q|).num.natAbs ++ '/' :: natChars (|q|).den

/-- Join character lists with `", "`. -/
def commaSep : List (List Char) → List Char
  | [] => []
  | [l] => l
  | l :: ls => l ++ ',' :: ' ' :: commaSep ls

mutual

/-- Python `str(v)` as a character list: `str()` of the top-level value,
`repr()` of nested container elements. -/
def pyStrChars : PyVal → List Char
  | PyVal.noneV => ['N', 'o', 'n', 'e']
  | PyVal.bool true => ['T', 'r', 'u', 'e']
  | PyVal.bool false => ['F', 'a', 'l', 's', 'e']
  | PyVal.int n => intChars n
  | PyVal.num q => ratChars q
  | PyVal.str s => s.data
  | PyVal.list xs => '[' :: commaSep (pyReprList xs) ++ [']']
  | PyVal.dict kvs => Char.ofNat 123 :: commaSep (pyReprKVs kvs) ++ [Char.ofNat 125]

/-- Python `repr(v)` as a character list (strings get quoted; escape
sequences inside strings are not modelled, they never reach a claim). -/
def pyReprChars : PyVal → List Char
  | PyVal.str s => Char.ofNat 39 :: s.data ++ [Char.ofNat 39]
  | v => pyStrChars v

/-- `repr` of each element of a list. -/
def pyReprList : List PyVal → List (List Char)
  | [] => []
  | v :: vs => pyReprChars v :: pyReprList vs

/-- `repr(k): repr(v)` of each binding of a dict. -/
def pyReprKVs : List (String × PyVal) → List (List Char)
  | [] => []
  | (k, v) :: kvs =>
      (Char.ofNat 39 :: k.data ++ Char.ofNat 39 :: ':' :: ' ' :: pyReprChars v) :: pyReprKVs kvs

end

/-- Python `str(v)` as a `String`. -/
def pyStr (v : PyVal) : String := String.mk (pyStrChars v)

/-- Round to the nearest integer, ties to even, as Python's `round`. -/
def halfEvenInt (q : ℚ) : Int :=
  let f := ⌊q⌋
  if q - f < 1/2 then f
  else if (1/2 : ℚ) < q - f then f + 1
  else if f % 2 = 0 then f else f + 1

/-- Python's `round(x, 1)`. -/
def round1 (q : ℚ) : ℚ := (halfEvenInt (q * 10) : ℚ) / 10

/-! Field names of the raw `GetUserStatus` response, as string constants. -/

def kUserStatus : String := "userStatus"
def kPlanStatus : String := "planStatus"
def kPlanInfo : String := "planInfo"
def kMonthlyPromptCredits : String := "monthlyPromptCredits"
def kAvailablePromptCredits : String := "availablePromptCredits"
def kMonthlyFlowCredits : String := "monthlyFlowCredits"
def kAvailableFlowCredits : String := "availableFlowCredits"
def kCascadeModelConfigData : String := "cascadeModelConfigData"
def kClientModelConfigs : String := "clientModelConfigs"
def kQuotaInfo : String := "quotaInfo"
def kRemainingFraction : String := "remainingFraction"
def kResetTime : String := "resetTime"
def kLabel : String := "label"
def kModelOrAlias : String := "modelOrAlias"
def kModel : String := "model"
def kPlanName : String := "planName"
def kTeamsTier : String := "teamsTier"
def kName : String := "name"
def kEmail : String := "email"

/-! The normalized output schema of `parse_quota_response`. -/

/-- A normalized prompt/flow credit block. -/
structure CreditBlock where
  available : Int
  monthly : Int
  used : Int
  used_percentage : ℚ
  remaining_percentage : ℚ

/-- One normalized model entry of the quota report. -/
structure ModelQuota where
  label : PyVal
  model_id : PyVal
  remaining_fraction : PyVal
  remaining_percentage : Option ℚ
  used_percentage : Option ℚ
  is_exhausted : Bool
  reset_time_iso : PyVal
  time_until_reset_ms : Int

/-- A pool of models sharing a grouping key, with fields copied from the
pool's first member. -/
structure QuotaPool where
  name : PyVal
  models : List ModelQuota
  model_count : Nat
  remaining_fraction : PyVal
  remaining_percentage : Option ℚ
  used_percentage : Option ℚ
  is_exhausted : Bool
  reset_time_iso : PyVal
  time_until_reset_ms : Int

/-- The full normalized quota report. -/
structure Report where
  timestamp : String
  plan_name : PyVal
  plan_tier : PyVal
  prompt_credits : Option CreditBlock
  flow_credits : Option CreditBlock
  models : List ModelQuota
  pools : List QuotaPool
  user_name : PyVal
  user_email : PyVal

/-- `_parse_credit_block(monthly_raw, available_raw)`: `None` unless the
monthly allotment is truthy, the available value is not `None`, and the
`int()` conversion leaves a non-zero monthly; `int()` failure raises. -/
def parse_credit_block (monthly_raw available_raw : PyVal) :
    Except String (Option CreditBlock) :=
  if ¬ truthy monthly_raw ∨ isNoneV available_raw then Except.ok Option.none
  else
    match pyInt monthly_raw with
    | Option.none => Except.error ("ValueError: invalid literal for int()")
    | some monthly =>
      match pyInt available_raw with
      | Option.none => Except.error ("ValueError: invalid literal for int()")
      | some available =>
        if monthly = 0 then Except.ok Option.none
        else
          Except.ok (some
            { available := available
              monthly := monthly
              used := monthly - available
              used_percentage := round1 ((monthly - available : ℚ) / monthly * 100)
              remaining_percentage := round1 ((available : ℚ) / monthly * 100) })

/-- The `try: datetime.fromisoformat(...) ... except: 0` block computing
`time_until_reset_ms`.  The library parser `fromisoformat` is abstracted as
a parameter `pt` giving the parsed instant in seconds (`Option.none` when
parsing raises); the surrounding code is modelled exactly: the `"Z"`
replacement, the millisecond conversion truncated toward zero by `int()`,
and the catch-all that turns any failure (including a non-string
`resetTime`, whose `.replace` raises) into `0`. -/
def timeUntilResetMs (pt : String → Option ℚ) (now : ℚ) (resetRaw : PyVal) : Int :=
  match resetRaw with
  | PyVal.str s =>
      match pt (s.replace "Z" "+00:00") with
      | some t => ratTrunc ((t - now) * 1000)
      | Option.none => 0
  | _ => 0

/-- The per-`fraction` percentage computation: `None` fractions give absent
percentages; numeric fractions give `round(f*100, 1)` / `round((1-f)*100, 1)`;
any other present value makes `round` raise (signalled by `Option.none`). -/
def pctPair (fraction : PyVal) : Option (Option ℚ × Option ℚ) :=
  match fraction with
  | PyVal.noneV => some (Option.none, Option.none)
  | v =>
    match asNum v with
    | some q => some (some (round1 (q * 100)), some (round1 ((1 - q) * 100)))
    | Option.none => Option.none

/-- `remaining_fraction == 0` for the values that can reach the comparison:
true exactly for numeric zero (`0`, `0.0`, `False`). -/
def pyEqZero (v : PyVal) : Bool :=
  match asNum v with
  | some q => decide (q = 0)
  | Option.none => false

/-- The body of the `for m in raw_models` loop of `parse_quota_response`:
skip entries without truthy `quotaInfo`, otherwise build a `ModelQuota`,
raising wherever the Python body would raise. -/
def parseModelEntry (pt : String → Option ℚ) (now : ℚ) (m : PyVal) :
    Except String (Option ModelQuota) :=
  match pyGet m kQuotaInfo PyVal.noneV with
  | Except.error e => Except.error e
  | Except.ok qi =>
    if truthy qi = false then Except.ok Option.none
    else
      match pyGet qi kRemainingFraction PyVal.noneV with
      | Except.error e => Except.error e
      | Except.ok fraction =>
        match pyGet qi kResetTime (PyVal.str ("")) with
        | Except.error e => Except.error e
        | Except.ok resetRaw =>
          match pctPair fraction with
          | Option.none => Except.error ("TypeError: round() argument is not a number")
          | some pcts =>
            match pyGet m kLabel (PyVal.str ("Unknown")) with
            | Except.error e => Except.error e
            | Except.ok label =>
              match pyGet m kModelOrAlias (PyVal.dict []) with
              | Except.error e => Except.error e
              | Except.ok moa =>
                match pyGet moa kModel (PyVal.str ("unknown")) with
                | Except.error e => Except.error e
                | Except.ok modelId =>
                  Except.ok (some
                    { label := label
                      model_id := modelId
                      remaining_fraction := fraction
                      remaining_percentage := pcts.1
                      used_percentage := pcts.2
                      is_exhausted :=
                        if isNoneV fraction then false else pyEqZero fraction
                      reset_time_iso := resetRaw
                      time_until_reset_ms := timeUntilResetMs pt now resetRaw })

/-- The whole model loop: one `ModelQuota` per entry with quota info, in
raw order; the first raising entry aborts everything. -/
def parseModels (pt : String → Option ℚ) (now : ℚ) :
    List PyVal → Except String (List ModelQuota)
  | [] => Except.ok []
  | m :: rest =>
    match parseModelEntry pt now m with
    | Except.error e => Except.error e
    | Except.ok Option.none => parseModels pt now rest
    | Except.ok (some mq) =>
      match parseModels pt now rest with
      | Except.error e => Except.error e
      | Except.ok ms => Except.ok (mq :: ms)

/-! Sorting.  `models.sort(key=_quota_sort_key)` is Python's stable sort on
the key `(not x["is_exhausted"], -(x["used_percentage"] or 0))`; we model it
by a stable insertion sort on the same key, which is extensionally the same
function. -/

/-- `_quota_sort_key` on the two fields it reads. -/
def quotaSortKey (exhausted : Bool) (usedPct : Option ℚ) : Bool × ℚ :=
  (!exhausted, -(usedPct.getD 0))

/-- The sort key of a model. -/
def mqKey (m : ModelQuota) : Bool × ℚ := quotaSortKey m.is_exhausted m.used_percentage

/-- The sort key of a pool (`_quota_sort_key` reads the same two fields). -/
def plKey (p : QuotaPool) : Bool × ℚ := quotaSortKey p.is_exhausted p.used_percentage

/-- Python tuple `<=` on `(bool, number)` keys: `False < True`,
then numeric order. -/
def keyLE (a b : Bool × ℚ) : Bool :=
  (a.1 = false && b.1 = true) || (a.1 = b.1 && decide (a.2 ≤ b.2))

/-- Insert `x` after every element whose key is `≤` its own: the stable
position for an element arriving after the current list. -/
def insLE (key : α → Bool × ℚ) (x : α) : List α → List α
  | [] => [x]
  | y :: ys => if keyLE (key y) (key x) then y :: insLE key x ys else x :: y :: ys

/-- Stable sort by key, processing the input left to right. -/
def stableSortBy (key : α → Bool × ℚ) (l : List α) : List α :=
  l.foldl (fun acc x => insLE key x acc) []

/-! Grouping.  `pool_map.setdefault(key, []).append(m)` over an
insertion-ordered dict: groups appear in order of first key occurrence,
members in list order. -/

/-- The grouping key `f"{m['reset_time_iso']}|{m['remaining_fraction']}"`,
as a character list. -/
def poolKeyChars (m : ModelQuota) : List Char :=
  pyStrChars m.reset_time_iso ++ '|' :: pyStrChars m.remaining_fraction

/-- The grouping key as a string. -/
def poolKey (m : ModelQuota) : String := String.mk (poolKeyChars m)

/-- Append `m` to the group with key `k`, or open a new group at the end. -/
def addToGroups (k : String) (m : ModelQuota) :
    List (String × List ModelQuota) → List (String × List ModelQuota)
  | [] => [(k, [m])]
  | (k', g) :: rest =>
    if k' = k then (k', g ++ [m]) :: rest else (k', g) :: addToGroups k m rest

/-- `pool_map` built over the sorted model list. -/
def groupByKey (ms : List ModelQuota) : List (String × List ModelQuota) :=
  ms.foldl (fun gs m => addToGroups (poolKey m) m gs) []

/-! `_derive_pool_name`. -/

/-- `"needle" in haystack` for strings. -/
def containsSub (haystack needle : String) : Bool :=
  (haystack.splitOn needle).length != 1

/-- `label.split()`: split on whitespace runs, dropping empty pieces. -/
def pySplit (s : String) : List String :=
  (s.split Char.isWhitespace).filter (fun t => t ≠ "")

/-- The family of one label: known family substrings checked
case-insensitively in priority order, otherwise the label's first
whitespace-delimited token (`label.split()[0]`, which raises on a label
without tokens; non-string labels raise at `.lower()`). -/
def famOf (label : PyVal) : Except String String :=
  match label with
  | PyVal.str s =>
    let lower := s.toLower
    if containsSub lower "claude" then Except.ok ("Claude")
    else if containsSub lower "gemini" then Except.ok ("Gemini")
    else if containsSub lower "gpt" then Except.ok ("GPT")
    else
      match pySplit s with
      | [] => Except.error ("IndexError: list index out of range")
      | t :: _ => Except.ok t
  | _ => Except.error ("AttributeError: object has no attribute lower")

/-- `families.add(f)` on the set modelled as a duplicate-free list. -/
def addFam (acc : List String) (f : String) : List String :=
  if f ∈ acc then acc else acc ++ [f]

/-- The `families` set of `_derive_pool_name` as a first-occurrence
deduplicated list (the set is only observed through its size, its sorted
form and its sole element when a singleton, so any duplicate-free
representation is faithful). -/
def famList : List PyVal → List String → Except String (List String)
  | [], acc => Except.ok acc
  | l :: ls, acc =>
    match famOf l with
    | Except.error e => Except.error e
    | Except.ok f => famList ls (addFam acc f)

/-- `sorted(families)`: insertion sort under the code-point order on
strings (all elements are distinct, so this is Python's `sorted`). -/
def sortStrings (l : List String) : List String :=
  List.insertionSort (fun a b : String => a ≤ b) l

/-- `_derive_pool_name(labels)`: one label names itself; otherwise the
distinct families decide the name. -/
def derive_pool_name (labels : List PyVal) : Except String PyVal :=
  match labels with
  | [l] => Except.ok l
  | _ =>
    match famList labels [] with
    | Except.error e => Except.error e
    | Except.ok fams =>
      match fams with
      | [f] => Except.ok (PyVal.str (f ++ " Models"))
      | _ =>
        let sortedFams := sortStrings fams
        if sortedFams.length ≤ 3 then
          Except.ok (PyVal.str (String.intercalate (" / ") sortedFams ++ " Models"))
        else Except.ok (PyVal.str ("Premium Models"))

/-- Build one pool entry from a group: name from the member labels, summary
fields copied from the first member. -/
def mkPool (g : String × List ModelQuota) : Except String QuotaPool :=
  match g.2 with
  | [] => Except.error ("IndexError: list index out of range")
  | first :: _ =>
    match derive_pool_name (g.2.map (fun m => m.label)) with
    | Except.error e => Except.error e
    | Except.ok nm =>
      Except.ok
        { name := nm
          models := g.2
          model_count := g.2.length
          remaining_fraction := first.remaining_fraction
          remaining_percentage := first.remaining_percentage
          used_percentage := first.used_percentage
          is_exhausted := first.is_exhausted
          reset_time_iso := first.reset_time_iso
          time_until_reset_ms := first.time_until_reset_ms }

/-- The `for pool_models in pool_map.values()` loop. -/
def mkPools : List (String × List ModelQuota) → Except String (List QuotaPool)
  | [] => Except.ok []
  | g :: gs =>
    match mkPool g with
    | Except.error e => Except.error e
    | Except.ok p =>
      match mkPools gs with
      | Except.error e => Except.error e
      | Except.ok ps => Except.ok (p :: ps)

/-- `parse_quota_response(data)`.  `pt` abstracts the library ISO-8601
parser, `now` is the capture instant in seconds and `nowIso` its
`isoformat()` text (the Python code reads the clock inside the function;
here the instant is a parameter). -/
def parse_quota_response (pt : String → Option ℚ) (now : ℚ) (nowIso : String)
    (data : PyVal) : Except String Report := do
  let userStatus ← pyGet data kUserStatus (PyVal.dict [])
  let planStatus ← pyGet userStatus kPlanStatus (PyVal.dict [])
  let planInfo ← pyGet planStatus kPlanInfo (PyVal.dict [])
  let mpc ← pyGet planInfo kMonthlyPromptCredits PyVal.noneV
  let apc ← pyGet planStatus kAvailablePromptCredits PyVal.noneV
  let promptCredits ← parse_credit_block mpc apc
  let mfc ← pyGet planInfo kMonthlyFlowCredits PyVal.noneV
  let afc ← pyGet planStatus kAvailableFlowCredits PyVal.noneV
  let flowCredits ← parse_credit_block mfc afc
  let cmcd ← pyGet userStatus kCascadeModelConfigData (PyVal.dict [])
  let rawModels ← pyGet cmcd kClientModelConfigs (PyVal.list [])
  let entries ← pyIter rawModels
  let ms ← parseModels pt now entries
  let models := stableSortBy mqKey ms
  let pools0 ← mkPools (groupByKey models)
  let pools := stableSortBy plKey pools0
  let planName ← pyGet planInfo kPlanName (PyVal.str ("Unknown"))
  let planTier ← pyGet planInfo kTeamsTier (PyVal.str (""))
  let userName ← pyGet userStatus kName (PyVal.str (""))
  let userEmail ← pyGet userStatus kEmail (PyVal.str (""))
  return {
      timestamp := nowIso
      plan_name := planName
      plan_tier := planTier
      prompt_credits := promptCredits
      flow_credits := flowCredits
      models := models
      pools := pools
      user_name := userName
      user_email := userEmail }

/-! The connection manager and the `/api/quota` route.  Process detection
and the HTTP fetch are I/O; a request is modelled against an oracle
`Script` giving the outcome of each potential detection pass and fetch. -/

/-- A validated Language Server connection (the dict built by
`detect_language_server`). -/
structure Conn where
  port : Int
  csrf_token : String
  pid : Int
  extension_port : Int

/-- The mutable state of `ConnectionManager`: the cached connection slot
and whether the lazily-created httpx client currently exists. -/
structure MgrState where
  connection : Option Conn
  clientLive : Bool

/-- `ConnectionManager.reset()`: close and discard the client and the
cached connection. -/
def mgrReset (_s : MgrState) : MgrState :=
  { connection := Option.none, clientLive := false }

/-- `ConnectionManager.invalidate_connection()`: drop the cached
connection (the field assignment `self._connection = None` and nothing
else). -/
def invalidate_connection (s : MgrState) : MgrState :=
  { s with connection := Option.none }

/-- One detection pass as seen by the manager: the resulting connection,
if any, and whether the pass touched `mgr.client` (a successful pass
always has, since `_test_port` uses the client). -/
structure DetectOutcome where
  found : Option Conn
  touched : Bool

/-- The oracle for one request: results of the first and (if needed)
post-reset detection passes, and of the first and second fetch attempts.
A fetch outcome is either the raw response body or the exception text. -/
structure Script where
  detect1 : DetectOutcome
  fetch1 : Except String PyVal
  detect2 : DetectOutcome
  fetch2 : Except String PyVal

/-- A script is well formed when a successful detection has touched the
client (port probing goes through `mgr.client`). -/
def Script.wf (sc : Script) : Prop :=
  (sc.detect1.found.isSome → sc.detect1.touched = true) ∧
  (sc.detect2.found.isSome → sc.detect2.touched = true)

/-- `ConnectionManager.get_connection()`: return the cached connection or
run a detection pass and cache its result. -/
def get_connection (s : MgrState) (det : DetectOutcome) : Option Conn × MgrState :=
  match s.connection with
  | some c => (some c, s)
  | Option.none =>
      (det.found, { connection := det.found, clientLive := s.clientLive || det.touched })

/-- The outcome of one `/api/quota` request: 200 with the report, 503
"not found", or 500 with the error text. -/
inductive ApiResult where
  | ok : Report → ApiResult
  | notFound : String → ApiResult
  | remoteError : String → ApiResult

/-- One `fetch_quota` + `parse_quota_response` attempt: `fetch_quota`
touches `mgr.client`, then either the fetch raises, the parse raises, or a
report is produced. -/
def runAttempt (pt : String → Option ℚ) (now : ℚ) (nowIso : String)
    (fetched : Except String PyVal) (s : MgrState) : Except String Report × MgrState :=
  let s' : MgrState := { s with clientLive := true }
  match fetched with
  | Except.error e => (Except.error e, s')
  | Except.ok raw => (parse_quota_response pt now nowIso raw, s')

/-- The `api_quota` route: look up a connection (503 if none), attempt the
fetch, and on any failure reset the cache, re-detect (500 with the first
error if that finds nothing) and attempt exactly once more (500 with the
second error on failure). -/
def api_quota (pt : String → Option ℚ) (now : ℚ) (nowIso : String)
    (sc : Script) (s0 : MgrState) : ApiResult × MgrState :=
  let r1 := get_connection s0 sc.detect1
  match r1.1 with
  | Option.none =>
      (ApiResult.notFound ("Language Server not found. Is Antigravity running?"), r1.2)
  | some _ =>
    let a1 := runAttempt pt now nowIso sc.fetch1 r1.2
    match a1.1 with
    | Except.ok rep => (ApiResult.ok rep, a1.2)
    | Except.error e1 =>
      let r2 := get_connection (mgrReset a1.2) sc.detect2
      match r2.1 with
      | Option.none => (ApiResult.remoteError ("Quota fetch failed: " ++ e1), r2.2)
      | some _ =>
        let a2 := runAttempt pt now nowIso sc.fetch2 r2.2
        match a2.1 with
        | Except.ok rep => (ApiResult.ok rep, a2.2)
        | Except.error e2 =>
            (ApiResult.remoteError ("Quota fetch failed: " ++ e2), a2.2)

/-! Well-typed raw input: the domain on which normalization is guaranteed
not to raise (every field either absent or of the type the code handles). -/

/-- A credit field the code tolerates: absent/None or an integer. -/
def wfCreditVal : PyVal → Bool
  | PyVal.noneV => true
  | PyVal.int _ => true
  | _ => false

/-- A `remainingFraction` the code tolerates: absent or numeric. -/
def wfFraction : PyVal → Bool
  | PyVal.noneV => true
  | PyVal.int _ => true
  | PyVal.num _ => true
  | PyVal.bool _ => true
  | _ => false

/-- Is the value a dict? -/
def isDict : PyVal → Bool
  | PyVal.dict _ => true
  | _ => false

/-- A label `_derive_pool_name` can always process: a string with at least
one whitespace-delimited token. -/
def goodLabel : PyVal → Bool
  | PyVal.str s => !(pySplit s).isEmpty
  | _ => false

/-- A well-typed raw model entry: a dict whose `quotaInfo`, when truthy,
is a dict with a tolerable fraction, a good label and a dict
`modelOrAlias`. -/
def wfEntry : PyVal → Bool
  | PyVal.dict kvs =>
    let qi := dictGet kvs kQuotaInfo PyVal.noneV
    if truthy qi then
      match qi with
      | PyVal.dict qkvs =>
        wfFraction (dictGet qkvs kRemainingFraction PyVal.noneV) &&
        goodLabel (dictGet kvs kLabel (PyVal.str ("Unknown"))) &&
        isDict (dictGet kvs kModelOrAlias (PyVal.dict []))
      | _ => false
    else true
  | _ => false

/-- A well-typed raw response: every nested node the code reads is a
dict/list where it must be, and every leaf is of a tolerated shape.
Missing fields are always allowed. -/
def wfRaw : PyVal → Bool
  | PyVal.dict dkvs =>
    match dictGet dkvs kUserStatus (PyVal.dict []) with
    | PyVal.dict ukvs =>
      (match dictGet ukvs kPlanStatus (PyVal.dict []) with
       | PyVal.dict pskvs =>
         (match dictGet pskvs kPlanInfo (PyVal.dict []) with
          | PyVal.dict pikvs =>
            wfCreditVal (dictGet pikvs kMonthlyPromptCredits PyVal.noneV) &&
            wfCreditVal (dictGet pskvs kAvailablePromptCredits PyVal.noneV) &&
            wfCreditVal (dictGet pikvs kMonthlyFlowCredits PyVal.noneV) &&
            wfCreditVal (dictGet pskvs kAvailableFlowCredits PyVal.noneV)
          | _ => false) &&
         (match dictGet ukvs kCascadeModelConfigData (PyVal.dict []) with
          | PyVal.dict ckvs =>
            (match dictGet ckvs kClientModelConfigs (PyVal.list []) with
             | PyVal.list entries => entries.all wfEntry
             | _ => false)
          | _ => false)
       | _ => false)
    | _ => false
  | _ => false

/-! Properties of the stable sort. -/

/-- Non-decreasing in the key order. -/
def SortedKey (key : α → Bool × ℚ) (l : List α) : Prop :=
  l.Pairwise (fun a b => keyLE (key a) (key b) = true)

theorem keyLE_refl (a : Bool × ℚ) : keyLE a a = true := by
  rcases a with ⟨x, q⟩
  rcases x <;> simp [keyLE]

theorem keyLE_total (a b : Bool × ℚ) : keyLE a b = true ∨ keyLE b a = true := by
  rcases a with ⟨x, q⟩
  rcases b with ⟨y, r⟩
  rcases x <;> rcases y <;> simp [keyLE] <;> exact le_total q r

theorem keyLE_trans {a b c : Bool × ℚ} (h1 : keyLE a b = true) (h2 : keyLE b c = true) :
    keyLE a c = true := by
  rcases a with ⟨x, q⟩
  rcases b with ⟨y, r⟩
  rcases c with ⟨z, s⟩
  rcases x <;> rcases y <;> rcases z <;> simp_all [keyLE] <;> linarith

theorem insLE_perm (key : α → Bool × ℚ) (x : α) (l : List α) :
    List.Perm (insLE key x l) (x :: l) := by
  induction l with
  | nil => simp [insLE]
  | cons y ys ih =>
    simp only [insLE]
    split
    · exact (ih.cons y).trans (List.Perm.swap x y ys)
    · exact List.Perm.refl _

theorem insLE_mem {key : α → Bool × ℚ} {x a : α} {l : List α}
    (h : a ∈ insLE key x l) : a = x ∨ a ∈ l := by
  have := (insLE_perm key x l).mem_iff.mp h
  simpa using this

theorem insLE_sorted (key : α → Bool × ℚ) (x : α) {l : List α}
    (hl : SortedKey key l) : SortedKey key (insLE key x l) := by
  induction l with
  | nil => simp [insLE, SortedKey]
  | cons y ys ih =>
    rcases List.pairwise_cons.mp hl with ⟨hy, hys⟩
    simp only [insLE]
    split
    · rename_i hcond
      refine List.pairwise_cons.mpr ⟨?_, ih hys⟩
      intro a ha
      rcases insLE_mem ha with rfl | ha
      · exact hcond
      · exact hy a ha
    · rename_i hcond
      have hxy : keyLE (key x) (key y) = true := by
        rcases keyLE_total (key y) (key x) with h | h
        · exact absurd h hcond
        · exact h
      refine List.pairwise_cons.mpr ⟨?_, hl⟩
      intro a ha
      rcases List.mem_cons.mp ha with rfl | ha
      · exact hxy
      · exact keyLE_trans hxy (hy a ha)

theorem insLE_filter (key : α → Bool × ℚ) (x : α) {l : List α}
    (hl : SortedKey key l) (k : Bool × ℚ) :
    (insLE key x l).filter (fun a => decide (key a = k)) =
      if key x = k then l.filter (fun a => decide (key a = k)) ++ [x]
      else l.filter (fun a => decide (key a = k)) := by
  induction l with
  | nil =>
    by_cases hx : key x = k <;> simp [insLE, hx]
  | cons y ys ih =>
    rcases List.pairwise_cons.mp hl with ⟨hy, hys⟩
    simp only [insLE]
    split
    · rename_i hcond
      by_cases hxk : key x = k <;> by_cases hyk : key y = k <;>
        simp [List.filter_cons, hxk, hyk, ih hys]
    · rename_i hcond
      have hyx : (key y = key x) → False := by
        intro h
        exact hcond (h ▸ keyLE_refl (key y))
      by_cases hxk : key x = k
      · have hyk : ¬ key y = k := fun h => hyx (h.trans hxk.symm)
        have hysnil : ys.filter (fun a => decide (key a = k)) = [] := by
          rw [List.filter_eq_nil_iff]
          intro a ha
          simp only [decide_eq_true_eq]
          intro hak
          apply hcond
          have hle := hy a ha
          rw [hak, ← hxk] at hle
          exact hle
        simp [List.filter_cons, hxk, hyk, hysnil]
      · by_cases hyk : key y = k <;> simp [List.filter_cons, hxk, hyk]

theorem stableSortBy_go (key : α → Bool × ℚ) (l acc : List α)
    (hacc : SortedKey key acc) :
    SortedKey key (List.foldl (fun acc x => insLE key x acc) acc l) ∧
    List.Perm (List.foldl (fun acc x => insLE key x acc) acc l) (acc ++ l) ∧
    ∀ k, (List.foldl (fun acc x => insLE key x acc) acc l).filter
            (fun a => decide (key a = k)) =
         acc.filter (fun a => decide (key a = k)) ++
           l.filter (fun a => decide (key a = k)) := by
  induction l generalizing acc with
  | nil =>
    refine ⟨hacc, by simp, ?_⟩
    intro k
    simp
  | cons x xs ih =>
    have hacc' : SortedKey key (insLE key x acc) := insLE_sorted key x hacc
    rcases ih (insLE key x acc) hacc' with ⟨hs, hp, hf⟩
    refine ⟨hs, ?_, ?_⟩
    · refine hp.trans ?_
      have h1 : List.Perm (insLE key x acc) (x :: acc) := insLE_perm key x acc
      refine (h1.append_right xs).trans ?_
      exact (@List.perm_middle _ x acc xs).symm
    · intro k
      simp only [List.foldl_cons]
      rw [hf k, insLE_filter key x hacc k, List.filter_cons]
      by_cases hxk : key x = k <;> simp [hxk]

theorem stableSortBy_sorted (key : α → Bool × ℚ) (l : List α) :
    SortedKey key (stableSortBy key l) :=
  (stableSortBy_go key l [] List.Pairwise.nil).1

theorem stableSortBy_perm (key : α → Bool × ℚ) (l : List α) :
    List.Perm (stableSortBy key l) l :=
  (stableSortBy_go key l [] List.Pairwise.nil).2.1

theorem stableSortBy_filter (key : α → Bool × ℚ) (l : List α) (k : Bool × ℚ) :
    (stableSortBy key l).filter (fun a => decide (key a = k)) =
      l.filter (fun a => decide (key a = k)) := by
  have := (stableSortBy_go key l [] List.Pairwise.nil).2.2 k
  simpa [stableSortBy] using this

/-! Properties of the grouping fold. -/

/-- Some group of `gs` contains `x`. -/
def inGroups (gs : List (String × List ModelQuota)) (x : ModelQuota) : Prop :=
  ∃ g ∈ gs, x ∈ g.2

/-- The structural invariant of the pool map: pairwise distinct keys, every
member keyed by its group's key, no empty group. -/
def GroupInv (gs : List (String × List ModelQuota)) : Prop :=
  gs.Pairwise (fun g1 g2 => g1.1 ≠ g2.1) ∧
  (∀ g ∈ gs, ∀ m ∈ g.2, poolKey m = g.1) ∧
  (∀ g ∈ gs, g.2 ≠ [])

theorem addToGroups_key_mem {k : String} {m : ModelQuota}
    {gs : List (String × List ModelQuota)} {g : String × List ModelQuota}
    (h : g ∈ addToGroups k m gs) : g.1 = k ∨ g.1 ∈ gs.map Prod.fst := by
  induction gs with
  | nil =>
    left
    simp only [addToGroups, List.mem_singleton] at h
    subst h
    rfl
  | cons hd tl ih =>
    rcases hd with ⟨k', grp⟩
    simp only [addToGroups] at h
    split at h
    · rcases List.mem_cons.mp h with rfl | h
      · right; simp
      · right; simp [List.mem_cons_of_mem, List.mem_map]
        exact Or.inr ⟨g.2, by simpa using h⟩
    · rcases List.mem_cons.mp h with rfl | h
      · right; simp
      · rcases ih h with h1 | h1
        · exact Or.inl h1
        · right; simp [h1]

theorem addToGroups_inv {k : String} {m : ModelQuota}
    {gs : List (String × List ModelQuota)} (hk : poolKey m = k)
    (hinv : GroupInv gs) : GroupInv (addToGroups k m gs) := by
  induction gs with
  | nil =>
    refine ⟨by simp [addToGroups], ?_, by simp [addToGroups]⟩
    intro g hg mm hmm
    simp only [addToGroups, List.mem_singleton] at hg
    subst hg
    simp only [List.mem_singleton] at hmm
    subst hmm
    exact hk
  | cons hd tl ih =>
    rcases hd with ⟨k', grp⟩
    rcases hinv with ⟨hpw, hkeyed, hne⟩
    rcases List.pairwise_cons.mp hpw with ⟨hhd, htl⟩
    by_cases hkk : k' = k
    · subst hkk
      refine ⟨?_, ?_, ?_⟩
      · simp only [addToGroups, if_pos rfl]
        exact List.pairwise_cons.mpr ⟨fun g hg => hhd g hg, htl⟩
      · intro g hg mm hmm
        simp only [addToGroups, if_pos rfl] at hg
        rcases List.mem_cons.mp hg with rfl | hg
        · simp only at hmm ⊢
          rcases List.mem_append.mp hmm with hmm | hmm
          · exact hkeyed (k', grp) (by simp) mm hmm
          · simp only [List.mem_singleton] at hmm
            subst hmm
            exact hk
        · exact hkeyed g (List.mem_cons_of_mem _ hg) mm hmm
      · intro g hg
        simp only [addToGroups, if_pos rfl] at hg
        rcases List.mem_cons.mp hg with rfl | hg
        · simp
        · exact hne g (List.mem_cons_of_mem _ hg)
    · have htlinv : GroupInv tl :=
        ⟨htl, fun g hg => hkeyed g (List.mem_cons_of_mem _ hg),
         fun g hg => hne g (List.mem_cons_of_mem _ hg)⟩
      rcases ih htlinv with ⟨rpw, rkeyed, rne⟩
      refine ⟨?_, ?_, ?_⟩
      · simp only [addToGroups, if_neg hkk]
        refine List.pairwise_cons.mpr ⟨?_, rpw⟩
        intro g hg
        rcases addToGroups_key_mem hg with h1 | h1
        · simpa [h1] using hkk
        · rcases List.mem_map.mp h1 with ⟨g', hg', hgk⟩
          have := hhd g' hg'
          simpa [hgk] using this
      · intro g hg
        simp only [addToGroups, if_neg hkk] at hg
        rcases List.mem_cons.mp hg with rfl | hg
        · exact hkeyed (k', grp) (by simp)
        · exact rkeyed g hg
      · intro g hg
        simp only [addToGroups, if_neg hkk] at hg
        rcases List.mem_cons.mp hg with rfl | hg
        · exact hne (k', grp) (by simp)
        · exact rne g hg

theorem addToGroups_mem {k : String} {m x : ModelQuota}
    {gs : List (String × List ModelQuota)} :
    inGroups (addToGroups k m gs) x ↔ inGroups gs x ∨ x = m := by
  induction gs with
  | nil => simp [addToGroups, inGroups]
  | cons hd tl ih =>
    rcases hd with ⟨k', grp⟩
    simp only [addToGroups]
    split
    · simp only [inGroups, List.mem_cons]
      constructor
      · rintro ⟨g, hg | hg, hxg⟩
        · subst hg
          simp only at hxg
          rcases List.mem_append.mp hxg with h | h
          · exact Or.inl ⟨(k', grp), by simp, h⟩
          · simp only [List.mem_singleton] at h
            exact Or.inr h
        · exact Or.inl ⟨g, Or.inr hg, hxg⟩
      · rintro (⟨g, hg | hg, hxg⟩ | hxm)
        · subst hg
          exact ⟨(k', grp ++ [m]), Or.inl rfl, by simp [hxg]⟩
        · exact ⟨g, Or.inr hg, hxg⟩
        · exact ⟨(k', grp ++ [m]), Or.inl rfl, by simp [hxm]⟩
    · simp only [inGroups, List.mem_cons]
      constructor
      · rintro ⟨g, hg | hg, hxg⟩
        · exact Or.inl ⟨g, Or.inl hg, hxg⟩
        · rcases ih.mp ⟨g, hg, hxg⟩ with ⟨g', hg', hxg'⟩ | h
          · exact Or.inl ⟨g', Or.inr hg', hxg'⟩
          · exact Or.inr h
      · rintro (⟨g, hg | hg, hxg⟩ | hxm)
        · exact ⟨g, Or.inl hg, hxg⟩
        · rcases ih.mpr (Or.inl ⟨g, hg, hxg⟩) with ⟨g', hg', hxg'⟩
          exact ⟨g', Or.inr hg', hxg'⟩
        · rcases ih.mpr (Or.inr hxm) with ⟨g', hg', hxg'⟩
          exact ⟨g', Or.inr hg', hxg'⟩

theorem groupByKey_go (ms : List ModelQuota) (acc : List (String × List ModelQuota))
    (hinv : GroupInv acc) :
    GroupInv (List.foldl (fun gs m => addToGroups (poolKey m) m gs) acc ms) ∧
    ∀ x, inGroups (List.foldl (fun gs m => addToGroups (poolKey m) m gs) acc ms) x ↔
          inGroups acc x ∨ x ∈ ms := by
  induction ms generalizing acc with
  | nil =>
    refine ⟨hinv, ?_⟩
    intro x
    simp
  | cons m ms ih =>
    have hinv' : GroupInv (addToGroups (poolKey m) m acc) := addToGroups_inv rfl hinv
    rcases ih (addToGroups (poolKey m) m acc) hinv' with ⟨hfin, hmem⟩
    refine ⟨hfin, ?_⟩
    intro x
    simp only [List.foldl_cons]
    rw [hmem x, addToGroups_mem]
    simp only [List.mem_cons]
    tauto

theorem groupByKey_inv (ms : List ModelQuota) : GroupInv (groupByKey ms) :=
  (groupByKey_go ms [] ⟨List.Pairwise.nil, by simp, by simp⟩).1

theorem groupByKey_mem (ms : List ModelQuota) (x : ModelQuota) :
    inGroups (groupByKey ms) x ↔ x ∈ ms := by
  have := (groupByKey_go ms [] ⟨List.Pairwise.nil, by simp, by simp⟩).2 x
  simpa [inGroups, groupByKey] using this

/-- Distinct keys force group identity: two groups of the fold sharing a
member are the same group. -/
theorem groupByKey_unique {ms : List ModelQuota}
    {g1 g2 : String × List ModelQuota} {x : ModelQuota}
    (h1 : g1 ∈ groupByKey ms) (h2 : g2 ∈ groupByKey ms)
    (hx1 : x ∈ g1.2) (hx2 : x ∈ g2.2) : g1 = g2 := by
  rcases groupByKey_inv ms with ⟨hpw, hkeyed, _⟩
  by_contra hne
  have hkey1 := hkeyed g1 h1 x hx1
  have hkey2 := hkeyed g2 h2 x hx2
  have hsym : Symmetric (fun g1 g2 : String × List ModelQuota => g1.1 ≠ g2.1) :=
    fun _ _ h e => h e.symm
  have : g1.1 ≠ g2.1 := List.Pairwise.forall hsym hpw h1 h2 hne
  exact this (hkey1 ▸ hkey2 ▸ rfl)

/-! Inversion lemmas for the model loop and the pool loop. -/

/-- What holds of every `ModelQuota` the loop can build: its percentage
fields come from `pctPair` of its fraction (which therefore is of a
tolerated shape), its exhaustion flag is the `== 0` comparison, and its
label is the entry's `label` field. -/
def ModelBuilt (m : PyVal) (mq : ModelQuota) : Prop :=
  ∃ kvs pcts, m = PyVal.dict kvs ∧
    pctPair mq.remaining_fraction = some pcts ∧
    mq.remaining_percentage = pcts.1 ∧
    mq.used_percentage = pcts.2 ∧
    mq.is_exhausted =
      (if isNoneV mq.remaining_fraction then false else pyEqZero mq.remaining_fraction) ∧
    mq.label = dictGet kvs kLabel (PyVal.str ("Unknown")) ∧
    truthy (dictGet kvs kQuotaInfo PyVal.noneV) = true

theorem parseModelEntry_inv {pt : String → Option ℚ} {now : ℚ} {m : PyVal}
    {mq : ModelQuota} (h : parseModelEntry pt now m = Except.ok (some mq)) :
    ModelBuilt m mq := by
  rcases m with _ | b | n | q | s | xs | kvs
  · simp [parseModelEntry, pyGet] at h
  · simp [parseModelEntry, pyGet] at h
  · simp [parseModelEntry, pyGet] at h
  · simp [parseModelEntry, pyGet] at h
  · simp [parseModelEntry, pyGet] at h
  · simp [parseModelEntry, pyGet] at h
  · simp only [parseModelEntry, pyGet] at h
    by_cases hq : truthy (dictGet kvs kQuotaInfo PyVal.noneV) = false
    · rw [if_pos hq] at h
      simp at h
    · rw [if_neg hq] at h
      rcases hqi : dictGet kvs kQuotaInfo PyVal.noneV with _ | _ | _ | _ | _ | _ | qkvs <;>
          rw [hqi] at h
      · simp at h
      · simp at h
      · simp at h
      · simp at h
      · simp at h
      · simp at h
      · simp only [] at h
        rcases hpp : pctPair (dictGet qkvs kRemainingFraction PyVal.noneV) with _ | pcts <;>
            rw [hpp] at h
        · simp at h
        · rcases hmo : dictGet kvs kModelOrAlias (PyVal.dict []) with _ | _ | _ | _ | _ | _ | mkvs <;>
              rw [hmo] at h
          · simp at h
          · simp at h
          · simp at h
          · simp at h
          · simp at h
          · simp at h
          · simp only [Except.ok.injEq, Option.some.injEq] at h
            refine ⟨kvs, pcts, rfl, ?_, ?_, ?_, ?_, ?_, ?_⟩
            · rw [← h]
              exact hpp
            · rw [← h]
            · rw [← h]
            · rw [← h]
            · rw [← h]
            · rw [hqi]
              rw [hqi] at hq
              simpa using hq

theorem parseModels_mem {pt : String → Option ℚ} {now : ℚ} {entries : List PyVal}
    {ms : List ModelQuota} (h : parseModels pt now entries = Except.ok ms)
    {mq : ModelQuota} (hmq : mq ∈ ms) :
    ∃ m ∈ entries, parseModelEntry pt now m = Except.ok (some mq) := by
  induction entries generalizing ms with
  | nil =>
    simp only [parseModels, Except.ok.injEq] at h
    subst h
    exact absurd hmq (by simp)
  | cons e rest ih =>
    simp only [parseModels] at h
    rcases he : parseModelEntry pt now e with _ | r <;> rw [he] at h
    · exact absurd h (by simp)
    · rcases r with _ | mq'
      · rcases ih h hmq with ⟨m, hm, hme⟩
        exact ⟨m, List.mem_cons_of_mem _ hm, hme⟩
      · rcases hrest : parseModels pt now rest with _ | ms' <;> rw [hrest] at h
        · exact absurd h (by simp)
        · simp only [Except.ok.injEq] at h
          subst h
          rcases List.mem_cons.mp hmq with rfl | hmq
          · exact ⟨e, by simp, he⟩
          · rcases ih hrest hmq with ⟨m, hm, hme⟩
            exact ⟨m, List.mem_cons_of_mem _ hm, hme⟩

theorem mkPool_models {g : String × List ModelQuota} {p : QuotaPool}
    (h : mkPool g = Except.ok p) :
    p.models = g.2 ∧
      ∃ first rest, g.2 = first :: rest ∧
        p.is_exhausted = first.is_exhausted ∧
        p.used_percentage = first.used_percentage ∧
        p.remaining_fraction = first.remaining_fraction ∧
        p.reset_time_iso = first.reset_time_iso := by
  unfold mkPool at h
  rcases hg : g.2 with _ | ⟨first, rest⟩ <;> rw [hg] at h
  · exact absurd h (by simp)
  · rcases hd : derive_pool_name ((first :: rest).map (fun m => m.label)) with _ | nm <;>
      rw [hd] at h
    · exact absurd h (by simp)
    · simp only [Except.ok.injEq] at h
      subst h
      refine ⟨?_, first, rest, ?_, rfl, rfl, rfl, rfl⟩ <;> simp [hg]

theorem mkPools_mem {gs : List (String × List ModelQuota)} {ps : List QuotaPool}
    (h : mkPools gs = Except.ok ps) (p : QuotaPool) :
    p ∈ ps ↔ ∃ g ∈ gs, mkPool g = Except.ok p := by
  induction gs generalizing ps with
  | nil =>
    simp only [mkPools, Except.ok.injEq] at h
    subst h
    simp
  | cons g gs ih =>
    simp only [mkPools] at h
    rcases hg : mkPool g with _ | p' <;> rw [hg] at h
    · exact absurd h (by simp)
    · rcases hrest : mkPools gs with _ | ps' <;> rw [hrest] at h
      · exact absurd h (by simp)
      · simp only [Except.ok.injEq] at h
        subst h
        simp only [List.mem_cons]
        constructor
        · rintro (rfl | hp)
          · exact ⟨g, by simp, hg⟩
          · rcases (ih hrest).mp hp with ⟨g', hg', hok⟩
            exact ⟨g', Or.inr hg', hok⟩
        · rintro ⟨g', hg' | hg', hok⟩
          · subst hg'
            left
            have hpp : p' = p := by
              have := hg.symm.trans hok
              simpa using this
            exact hpp.symm
          · exact Or.inr ((ih hrest).mpr ⟨g', hg', hok⟩)

theorem exceptBind_ok {A B : Type} {x : Except String A} {f : A → Except String B}
    {b : B} (h : x >>= f = Except.ok b) : ∃ a, x = Except.ok a ∧ f a = Except.ok b := by
  rcases x with e | a
  · exact absurd h (by simp [Bind.bind, Except.bind])
  · exact ⟨a, rfl, by simpa [Bind.bind, Except.bind] using h⟩

/-- A successful normalization run determines its model and pool lists:
models are the stable-sorted loop output, pools are the stable-sorted pool
entries of the groups of the sorted models. -/
theorem parse_quota_response_inv {pt : String → Option ℚ} {now : ℚ} {nowIso : String}
    {data : PyVal} {rep : Report}
    (h : parse_quota_response pt now nowIso data = Except.ok rep) :
    ∃ entries ms pools0,
      parseModels pt now entries = Except.ok ms ∧
      rep.models = stableSortBy mqKey ms ∧
      mkPools (groupByKey (stableSortBy mqKey ms)) = Except.ok pools0 ∧
      rep.pools = stableSortBy plKey pools0 := by
  unfold parse_quota_response at h
  rcases exceptBind_ok h with ⟨userStatus, _, h⟩
  rcases exceptBind_ok h with ⟨planStatus, _, h⟩
  rcases exceptBind_ok h with ⟨planInfo, _, h⟩
  rcases exceptBind_ok h with ⟨mpc, _, h⟩
  rcases exceptBind_ok h with ⟨apc, _, h⟩
  rcases exceptBind_ok h with ⟨promptCredits, _, h⟩
  rcases exceptBind_ok h with ⟨mfc, _, h⟩
  rcases exceptBind_ok h with ⟨afc, _, h⟩
  rcases exceptBind_ok h with ⟨flowCredits, _, h⟩
  rcases exceptBind_ok h with ⟨cmcd, _, h⟩
  rcases exceptBind_ok h with ⟨rawModels, _, h⟩
  rcases exceptBind_ok h with ⟨entries, _, h⟩
  rcases exceptBind_ok h with ⟨ms, hms, h⟩
  rcases exceptBind_ok h with ⟨pools0, hpools0, h⟩
  rcases exceptBind_ok h with ⟨planName, _, h⟩
  rcases exceptBind_ok h with ⟨planTier, _, h⟩
  rcases exceptBind_ok h with ⟨userName, _, h⟩
  rcases exceptBind_ok h with ⟨userEmail, _, h⟩
  simp only [pure, Except.pure, Except.ok.injEq] at h
  refine ⟨entries, ms, pools0, hms, ?_, hpools0, ?_⟩ <;> rw [← h]

/-- `pyEqZero` tests exactly numeric equality with zero. -/
theorem pyEqZero_iff {v : PyVal} : pyEqZero v = true ↔ asNum v = some 0 := by
  unfold pyEqZero
  rcases hv : asNum v with _ | q
  · simp
  · simp

/-- What `pctPair` success means. -/
theorem pctPair_inv {v : PyVal} {pcts : Option ℚ × Option ℚ}
    (h : pctPair v = some pcts) :
    (v = PyVal.noneV ∧ pcts = (Option.none, Option.none)) ∨
    (∃ q, asNum v = some q ∧
      pcts = (some (round1 (q * 100)), some (round1 ((1 - q) * 100)))) := by
  rcases v with _ | b | n | q | s | xs | kvs
  · left
    simp only [pctPair, Option.some.injEq] at h
    exact ⟨rfl, h.symm⟩
  all_goals
    right
    simp only [pctPair] at h
    rcases hv : asNum _ with _ | q0 <;> rw [hv] at h
  all_goals simp_all

/-! The grouping key `f"{reset}|{fraction}"` separates its two components:
the `str()` of any fraction value the loop lets through never contains a
bar, so splitting at the last bar is unambiguous. -/

theorem digitChar_mem (m : Nat) : digitChar m ∈ decDigits := by
  unfold digitChar
  have h : m % 10 < 10 := Nat.mod_lt _ (by omega)
  set r := m % 10 with hr
  clear_value r
  interval_cases r <;> decide

theorem natChars_mem (n : Nat) : ∀ c ∈ natChars n, c ∈ decDigits := by
  induction n using Nat.strong_induction_on with
  | _ n ih =>
    intro c hc
    rw [natChars] at hc
    split at hc
    · simp only [List.mem_singleton] at hc
      subst hc
      exact digitChar_mem n
    · rcases List.mem_append.mp hc with h | h
      · exact ih (n / 10) (Nat.div_lt_self (by omega) (by omega)) c h
      · simp only [List.mem_singleton] at h
        subst h
        exact digitChar_mem (n % 10)

theorem intChars_mem (n : Int) : ∀ c ∈ intChars n, c ∈ '-' :: decDigits := by
  intro c hc
  unfold intChars at hc
  split at hc
  · rcases List.mem_cons.mp hc with rfl | hc
    · simp
    · exact List.mem_cons_of_mem _ (natChars_mem _ c hc)
  · exact List.mem_cons_of_mem _ (natChars_mem _ c hc)

theorem stripZeros_mem (l : List Char) : ∀ c ∈ stripZeros l, c ∈ '0' :: l := by
  intro c hc
  unfold stripZeros at hc
  split at hc
  · simp only [List.mem_singleton] at hc
    simp [hc]
  · rw [List.mem_reverse] at hc
    have hsub := @List.dropWhile_sublist _ l.reverse (fun c => decide (c = '0'))
    exact List.mem_cons_of_mem _ (List.mem_reverse.mp (hsub.mem hc))


theorem fracChars_mem (k fp : Nat) : ∀ c ∈ fracChars k fp, c ∈ decDigits := by
  intro c hc
  unfold fracChars at hc
  rcases List.mem_cons.mp (stripZeros_mem _ c hc) with rfl | hc
  · decide
  · rcases List.mem_append.mp hc with h | h
    · rw [List.eq_of_mem_replicate h]
      decide
    · exact natChars_mem _ c h

/-- The characters `str()` can produce for a tolerated fraction value. -/
def fracAlphabet : List Char :=
  '-' :: '.' :: '/' :: 'N' :: 'o' :: 'n' :: 'e' :: 'T' :: 'r' :: 'u' :: 'F' :: 'a' ::
    'l' :: 's' :: decDigits

theorem ratChars_mem (q : ℚ) : ∀ c ∈ ratChars q, c ∈ fracAlphabet := by
  intro c hc
  unfold ratChars at hc
  have hsgn : ∀ c, c ∈ (if q < 0 then ['-'] else ([] : List Char)) → c ∈ fracAlphabet := by
    intro c hcs
    split at hcs
    · simp only [List.mem_singleton] at hcs
      simp [hcs, fracAlphabet]
    · exact absurd hcs (by simp)
  have hdig : ∀ c, c ∈ decDigits → c ∈ fracAlphabet := by
    intro c hcd
    simp [fracAlphabet, hcd]
  rcases List.mem_append.mp hc with h | h
  · exact hsgn c h
  · split at h
    · rcases List.mem_append.mp h with h | h
      · exact hdig c (natChars_mem _ c h)
      · rcases List.mem_cons.mp h with rfl | h
        · decide
        · exact hdig c (fracChars_mem _ _ c h)
    · rcases List.mem_append.mp h with h | h
      · exact hdig c (natChars_mem _ c h)
      · rcases List.mem_cons.mp h with rfl | h
        · decide
        · exact hdig c (natChars_mem _ c h)

/-- No bar in the `str()` of a tolerated fraction value. -/
theorem wfFraction_noBar {v : PyVal} (hv : wfFraction v = true) :
    '|' ∉ pyStrChars v := by
  intro hbar
  rcases v with _ | b | n | q | s | xs | kvs
  · simp [pyStrChars] at hbar
  · rcases b <;> simp [pyStrChars] at hbar
  · have := intChars_mem n '|' (by simpa [pyStrChars] using hbar)
    revert this
    decide
  · have := ratChars_mem q '|' (by simpa [pyStrChars] using hbar)
    revert this
    decide
  · simp [wfFraction] at hv
  · simp [wfFraction] at hv
  · simp [wfFraction] at hv

theorem bar_split_aux {m1 m2 l1 l2 : List Char} (h1 : '|' ∉ m1) (h2 : '|' ∉ m2)
    (h : m1 ++ '|' :: l1 = m2 ++ '|' :: l2) : m1 = m2 ∧ l1 = l2 := by
  induction m1 generalizing m2 with
  | nil =>
    rcases m2 with _ | ⟨c, m2⟩
    · simpa using h
    · simp only [List.nil_append, List.cons_append, List.cons.injEq] at h
      exact absurd (h.1 ▸ List.mem_cons_self _ _) h2
  | cons c m1 ih =>
    rcases m2 with _ | ⟨c', m2⟩
    · simp only [List.nil_append, List.cons_append, List.cons.injEq] at h
      exact absurd (h.1.symm ▸ List.mem_cons_self _ _) h1
    · simp only [List.cons_append, List.cons.injEq] at h
      have hm1 : '|' ∉ m1 := fun hx => h1 (List.mem_cons_of_mem _ hx)
      have hm2 : '|' ∉ m2 := fun hx => h2 (List.mem_cons_of_mem _ hx)
      rcases ih hm1 hm2 h.2 with ⟨he, hl⟩
      exact ⟨by rw [h.1, he], hl⟩

/-- Splitting a bar-joined pair at its last bar: if neither second
component contains a bar, the components are determined. -/
theorem bar_split {s1 t1 s2 t2 : List Char} (h1 : '|' ∉ t1) (h2 : '|' ∉ t2)
    (h : s1 ++ '|' :: t1 = s2 ++ '|' :: t2) : s1 = s2 ∧ t1 = t2 := by
  have hrev : t1.reverse ++ '|' :: s1.reverse = t2.reverse ++ '|' :: s2.reverse := by
    have := congrArg List.reverse h
    simpa [List.reverse_append] using this
  have h1' : '|' ∉ t1.reverse := by simpa using h1
  have h2' : '|' ∉ t2.reverse := by simpa using h2
  rcases bar_split_aux h1' h2' hrev with ⟨ht, hs⟩
  constructor
  · have := congrArg List.reverse hs
    simpa using this
  · have := congrArg List.reverse ht
    simpa using this

/-! Pool membership in a successful report. -/

/-- `m1` and `m2` are members of one common pool of the report. -/
def samePool (rep : Report) (m1 m2 : ModelQuota) : Prop :=
  ∃ p ∈ rep.pools, m1 ∈ p.models ∧ m2 ∈ p.models

theorem groupByKey_key_unique {ms : List ModelQuota}
    {g1 g2 : String × List ModelQuota}
    (h1 : g1 ∈ groupByKey ms) (h2 : g2 ∈ groupByKey ms)
    (hk : g1.1 = g2.1) : g1 = g2 := by
  rcases groupByKey_inv ms with ⟨hpw, _, _⟩
  by_contra hne
  have hsym : Symmetric (fun g1 g2 : String × List ModelQuota => g1.1 ≠ g2.1) :=
    fun _ _ h e => h e.symm
  exact List.Pairwise.forall hsym hpw h1 h2 hne hk

theorem mkPools_forall {gs : List (String × List ModelQuota)} {ps : List QuotaPool}
    (h : mkPools gs = Except.ok ps) {g : String × List ModelQuota} (hg : g ∈ gs) :
    ∃ p, mkPool g = Except.ok p ∧ p ∈ ps := by
  induction gs generalizing ps with
  | nil => exact absurd hg (by simp)
  | cons g0 gs ih =>
    simp only [mkPools] at h
    rcases hg0 : mkPool g0 with _ | p' <;> rw [hg0] at h
    · exact absurd h (by simp)
    · rcases hrest : mkPools gs with _ | ps' <;> rw [hrest] at h
      · exact absurd h (by simp)
      · simp only [Except.ok.injEq] at h
        subst h
        rcases List.mem_cons.mp hg with rfl | hg
        · exact ⟨p', hg0, by simp⟩
        · rcases ih hrest hg with ⟨p, hp, hps⟩
          exact ⟨p, hp, List.mem_cons_of_mem _ hps⟩

theorem pctPair_wfFraction {v : PyVal} {pcts : Option ℚ × Option ℚ}
    (h : pctPair v = some pcts) : wfFraction v = true := by
  rcases v with _ | b | n | q | s | xs | kvs <;> simp_all [pctPair, asNum, wfFraction]

theorem stringMk_inj {a b : List Char} (h : String.mk a = String.mk b) : a = b :=
  congrArg String.data h

/-- In a successful report two models of the model list share a pool
exactly when their grouping keys coincide. -/
theorem samePool_iff_poolKey {pt : String → Option ℚ} {now : ℚ} {nowIso : String}
    {data : PyVal} {rep : Report}
    (h : parse_quota_response pt now nowIso data = Except.ok rep)
    {m1 m2 : ModelQuota} (hm1 : m1 ∈ rep.models) (hm2 : m2 ∈ rep.models) :
    samePool rep m1 m2 ↔ poolKey m1 = poolKey m2 := by
  rcases parse_quota_response_inv h with ⟨entries, ms, pools0, hms, hmodels, hpools0, hpools⟩
  rw [hmodels] at hm1 hm2
  have hpoolmem : ∀ p, p ∈ rep.pools ↔ p ∈ pools0 := by
    intro p
    rw [hpools]
    exact (stableSortBy_perm plKey pools0).mem_iff
  rcases groupByKey_inv (stableSortBy mqKey ms) with ⟨_, hkeyed, _⟩
  constructor
  · rintro ⟨p, hp, hm1p, hm2p⟩
    rcases (mkPools_mem hpools0 p).mp ((hpoolmem p).mp hp) with ⟨g, hg, hok⟩
    rcases mkPool_models hok with ⟨hpm, _⟩
    rw [hpm] at hm1p hm2p
    rw [hkeyed g hg m1 hm1p, hkeyed g hg m2 hm2p]
  · intro hkey
    rcases (groupByKey_mem (stableSortBy mqKey ms) m1).mpr hm1 with ⟨g1, hg1, hm1g⟩
    rcases (groupByKey_mem (stableSortBy mqKey ms) m2).mpr hm2 with ⟨g2, hg2, hm2g⟩
    have hk12 : g1.1 = g2.1 := by
      rw [← hkeyed g1 hg1 m1 hm1g, ← hkeyed g2 hg2 m2 hm2g]
      exact hkey
    have hgeq : g1 = g2 := groupByKey_key_unique hg1 hg2 hk12
    subst hgeq
    rcases mkPools_forall hpools0 hg1 with ⟨p, hok, hp0⟩
    rcases mkPool_models hok with ⟨hpm, _⟩
    exact ⟨p, (hpoolmem p).mpr hp0, by rw [hpm]; exact hm1g, by rw [hpm]; exact hm2g⟩

/-- In a successful report pool keys split into the two field
representations: models share a pool exactly when the `str()` texts of
their reset time and of their remaining fraction both agree. -/
theorem samePool_iff_fields {pt : String → Option ℚ} {now : ℚ} {nowIso : String}
    {data : PyVal} {rep : Report}
    (h : parse_quota_response pt now nowIso data = Except.ok rep)
    {m1 m2 : ModelQuota} (hm1 : m1 ∈ rep.models) (hm2 : m2 ∈ rep.models) :
    samePool rep m1 m2 ↔
      (pyStrChars m1.reset_time_iso = pyStrChars m2.reset_time_iso ∧
       pyStrChars m1.remaining_fraction = pyStrChars m2.remaining_fraction) := by
  rw [samePool_iff_poolKey h hm1 hm2]
  have hwf : ∀ m : ModelQuota, m ∈ rep.models → wfFraction m.remaining_fraction = true := by
    intro m hm
    rcases parse_quota_response_inv h with ⟨entries, ms, pools0, hms, hmodels, _, _⟩
    rw [hmodels] at hm
    have hmem : m ∈ ms := (stableSortBy_perm mqKey ms).mem_iff.mp hm
    rcases parseModels_mem hms hmem with ⟨e, _, he⟩
    rcases parseModelEntry_inv he with ⟨kvs, pcts, _, hpp, _⟩
    exact pctPair_wfFraction hpp
  constructor
  · intro hkey
    have hchars : poolKeyChars m1 = poolKeyChars m2 := stringMk_inj hkey
    unfold poolKeyChars at hchars
    exact bar_split (wfFraction_noBar (hwf m1 hm1)) (wfFraction_noBar (hwf m2 hm2)) hchars
  · rintro ⟨h1, h2⟩
    unfold poolKey poolKeyChars
    rw [h1, h2]

/-! Concrete values used to instantiate the claims. -/

/-- A trivial stand-in for the library ISO parser: always fails, so every
reset text yields 0 ms.  Used to instantiate witnesses. -/
def pt0 : String → Option ℚ := fun _ => Option.none

/-- Model A of the sorting example: not exhausted, 90 percent used. -/
def mqA : ModelQuota :=
  { label := PyVal.str ("A"), model_id := PyVal.str ("a")
    remaining_fraction := PyVal.num (1/10), remaining_percentage := some 10
    used_percentage := some 90, is_exhausted := false
    reset_time_iso := PyVal.str ("r"), time_until_reset_ms := 0 }

/-- Model B of the sorting example: exhausted, 10 percent used. -/
def mqB : ModelQuota :=
  { label := PyVal.str ("B"), model_id := PyVal.str ("b")
    remaining_fraction := PyVal.num (9/10), remaining_percentage := some 90
    used_percentage := some 10, is_exhausted := true
    reset_time_iso := PyVal.str ("r"), time_until_reset_ms := 0 }

/-- Model C of the sorting example: not exhausted, 95 percent used. -/
def mqC : ModelQuota :=
  { label := PyVal.str ("C"), model_id := PyVal.str ("c")
    remaining_fraction := PyVal.num (1/20), remaining_percentage := some 5
    used_percentage := some 95, is_exhausted := false
    reset_time_iso := PyVal.str ("r"), time_until_reset_ms := 0 }

/-- The empty raw response and the report it normalizes to. -/
def repEmpty : Report :=
  { timestamp := "t", plan_name := PyVal.str ("Unknown"), plan_tier := PyVal.str ("")
    prompt_credits := Option.none, flow_credits := Option.none
    models := [], pools := [], user_name := PyVal.str (""), user_email := PyVal.str ("") }

/-- C5: the output model list is sorted by the composite key - exhausted
models first, then used percentage descending with an absent percentage
ordered as 0 - the sort is stable (elements with equal keys keep their
relative order: filtering by any key value commutes with sorting), the
sorted list is a permutation of the loop output, every successful report's
model list is so sorted, and the concrete example A(not exhausted, 90),
B(exhausted, 10), C(not exhausted, 95) comes out as [B, C, A]. -/
theorem models_sorted_stable_spec :
    (∀ l : List ModelQuota,
      SortedKey mqKey (stableSortBy mqKey l) ∧
      List.Perm (stableSortBy mqKey l) l ∧
      ∀ k, (stableSortBy mqKey l).filter (fun m => decide (mqKey m = k)) =
           l.filter (fun m => decide (mqKey m = k))) ∧
    (∀ (pt : String → Option ℚ) (now : ℚ) (nowIso : String) (data : PyVal) (rep : Report),
      parse_quota_response pt now nowIso data = Except.ok rep →
      SortedKey mqKey rep.models) ∧
    stableSortBy mqKey [mqA, mqB, mqC] = [mqB, mqC, mqA] := by
  refine ⟨?_, ?_, ?_⟩
  · intro l
    exact ⟨stableSortBy_sorted mqKey l, stableSortBy_perm mqKey l,
      stableSortBy_filter mqKey l⟩
  · intro pt now nowIso data rep h
    rcases parse_quota_response_inv h with ⟨entries, ms, pools0, _, hmodels, _, _⟩
    rw [hmodels]
    exact stableSortBy_sorted mqKey ms
  · rfl

/-- C5 witness: the sortedness guarantee applied to the concrete report of
the empty raw response. -/
theorem models_sorted_stable_spec_witness :
    parse_quota_response pt0 0 ("t") (PyVal.dict []) = Except.ok repEmpty ∧
    SortedKey mqKey repEmpty.models :=
  ⟨rfl, models_sorted_stable_spec.2.1 pt0 0 ("t") (PyVal.dict []) repEmpty rfl⟩

/-- C6: on integer-or-absent credit fields (the shape the upstream sends),
a credit block is emitted exactly when the monthly allotment is present and
non-zero and the available count is present; the emitted block carries
used = monthly - available and the two percentages rounded to one decimal;
monthly 100 with available 25 gives used 75, used 75.0 percent, remaining
25.0 percent. -/
theorem credit_block_spec :
    (∀ mv av : PyVal,
      (mv = PyVal.noneV ∨ ∃ n : Int, mv = PyVal.int n) →
      (av = PyVal.noneV ∨ ∃ n : Int, av = PyVal.int n) →
      ∃ r, parse_credit_block mv av = Except.ok r ∧
        (r.isSome = true ↔ ∃ n a : Int, mv = PyVal.int n ∧ n ≠ 0 ∧ av = PyVal.int a) ∧
        (∀ b n a, r = some b → mv = PyVal.int n → av = PyVal.int a →
          b.monthly = n ∧ b.available = a ∧ b.used = n - a ∧
          b.used_percentage = round1 ((n - a : ℚ) / n * 100) ∧
          b.remaining_percentage = round1 ((a : ℚ) / n * 100))) ∧
    parse_credit_block (PyVal.int 100) (PyVal.int 25) =
      Except.ok (some
        { available := 25, monthly := 100, used := 75,
          used_percentage := 75, remaining_percentage := 25 }) := by
  constructor
  · rintro mv av (rfl | ⟨n, rfl⟩) hav
    · refine ⟨Option.none, by simp [parse_credit_block, truthy], by simp, by simp⟩
    · rcases hav with rfl | ⟨a, rfl⟩
      · refine ⟨Option.none, ?_, by simp, by simp⟩
        unfold parse_credit_block
        rw [if_pos]
        right
        rfl
      · by_cases hn : n = 0
        · subst hn
          refine ⟨Option.none, by simp [parse_credit_block, truthy, isNoneV], by simp, by simp⟩
        · refine ⟨some
            { available := a, monthly := n, used := n - a,
              used_percentage := round1 ((n - a : ℚ) / n * 100),
              remaining_percentage := round1 ((a : ℚ) / n * 100) }, ?_, ?_, ?_⟩
          · unfold parse_credit_block
            rw [if_neg (by simp [truthy, isNoneV, hn])]
            simp only [pyInt]
            rw [if_neg hn]
          · simp only [Option.isSome_some, true_iff]
            exact ⟨n, a, rfl, hn, rfl⟩
          · rintro b n' a' hb hn' ha'
            rcases PyVal.int.inj hn' with rfl
            rcases PyVal.int.inj ha' with rfl
            rcases Option.some.inj hb with rfl
            simp
  · with_unfolding_all rfl

/-- C6 witness: the general credit rule applied at monthly 100,
available 25. -/
theorem credit_block_spec_witness :
    ∃ r, parse_credit_block (PyVal.int 100) (PyVal.int 25) = Except.ok r ∧
      (r.isSome = true ↔
        ∃ n a : Int, PyVal.int 100 = PyVal.int n ∧ n ≠ 0 ∧ PyVal.int 25 = PyVal.int a) ∧
      (∀ b n a, r = some b → PyVal.int 100 = PyVal.int n → PyVal.int 25 = PyVal.int a →
        b.monthly = n ∧ b.available = a ∧ b.used = n - a ∧
        b.used_percentage = round1 ((n - a : ℚ) / n * 100) ∧
        b.remaining_percentage = round1 ((a : ℚ) / n * 100)) :=
  credit_block_spec.1 (PyVal.int 100) (PyVal.int 25)
    (Or.inr ⟨100, rfl⟩) (Or.inr ⟨25, rfl⟩)

theorem isNoneV_iff {v : PyVal} : isNoneV v = true ↔ v = PyVal.noneV := by
  rcases v <;> simp [isNoneV]

/-- C8: in every successful report, a model is exhausted exactly when its
remaining fraction is present with numeric value zero (whatever the reset
time says); an absent fraction yields absent used and remaining
percentages and a false exhaustion flag. -/
theorem exhaustion_spec :
    ∀ (pt : String → Option ℚ) (now : ℚ) (nowIso : String) (data : PyVal) (rep : Report),
      parse_quota_response pt now nowIso data = Except.ok rep →
      ∀ mq ∈ rep.models,
        (mq.is_exhausted = true ↔
          (isNoneV mq.remaining_fraction = false ∧ asNum mq.remaining_fraction = some 0)) ∧
        (isNoneV mq.remaining_fraction = true →
          mq.used_percentage = Option.none ∧ mq.remaining_percentage = Option.none ∧
          mq.is_exhausted = false) := by
  intro pt now nowIso data rep h mq hmq
  rcases parse_quota_response_inv h with ⟨entries, ms, pools0, hms, hmodels, _, _⟩
  rw [hmodels] at hmq
  have hmem : mq ∈ ms := (stableSortBy_perm mqKey ms).mem_iff.mp hmq
  rcases parseModels_mem hms hmem with ⟨e, _, he⟩
  rcases parseModelEntry_inv he with ⟨kvs, pcts, _, hpp, hrem, hused, hexh, _, _⟩
  constructor
  · rw [hexh]
    by_cases hn : isNoneV mq.remaining_fraction = true
    · rw [if_pos hn]
      constructor
      · intro hfalse
        exact absurd hfalse (by simp)
      · rintro ⟨hfc, _⟩
        rw [hn] at hfc
        exact absurd hfc (by simp)
    · rw [if_neg hn]
      rw [Bool.not_eq_true] at hn
      rw [pyEqZero_iff]
      simp [hn]
  · intro hn
    have hfr : mq.remaining_fraction = PyVal.noneV := isNoneV_iff.mp hn
    have hpp' : pctPair PyVal.noneV = some pcts := hfr ▸ hpp
    have hpcts : pcts = (Option.none, Option.none) := by
      simpa [pctPair] using hpp'.symm
    refine ⟨?_, ?_, ?_⟩
    · rw [hused, hpcts]
    · rw [hrem, hpcts]
    · rw [hexh, if_pos hn]

/-- The single-exhausted-model raw response and its report, used to
instantiate the C8 guarantee. -/
def entry8 : PyVal :=
  PyVal.dict
    [(kQuotaInfo, PyVal.dict
        [(kRemainingFraction, PyVal.num 0), (kResetTime, PyVal.str ("R"))]),
     (kLabel, PyVal.str ("Claude X"))]

def data8 : PyVal :=
  PyVal.dict
    [(kUserStatus, PyVal.dict
        [(kCascadeModelConfigData, PyVal.dict
            [(kClientModelConfigs, PyVal.list [entry8])])])]

def mq8 : ModelQuota :=
  { label := PyVal.str ("Claude X"), model_id := PyVal.str ("unknown")
    remaining_fraction := PyVal.num 0, remaining_percentage := some 0
    used_percentage := some 100, is_exhausted := true
    reset_time_iso := PyVal.str ("R"), time_until_reset_ms := 0 }

def pool8 : QuotaPool :=
  { name := PyVal.str ("Claude X"), models := [mq8], model_count := 1
    remaining_fraction := PyVal.num 0, remaining_percentage := some 0
    used_percentage := some 100, is_exhausted := true
    reset_time_iso := PyVal.str ("R"), time_until_reset_ms := 0 }

def rep8 : Report :=
  { timestamp := "t", plan_name := PyVal.str ("Unknown"), plan_tier := PyVal.str ("")
    prompt_credits := Option.none, flow_credits := Option.none
    models := [mq8], pools := [pool8]
    user_name := PyVal.str (""), user_email := PyVal.str ("") }

/-- C8 witness: the exhaustion rule applied to the concrete report of a
response whose one model has fraction 0. -/
theorem exhaustion_spec_witness :
    parse_quota_response pt0 0 ("t") data8 = Except.ok rep8 ∧
    (mq8.is_exhausted = true ↔
      (isNoneV mq8.remaining_fraction = false ∧ asNum mq8.remaining_fraction = some 0)) :=
  ⟨by with_unfolding_all rfl,
   (exhaustion_spec pt0 0 ("t") data8 rep8 (by with_unfolding_all rfl) mq8
      (List.mem_singleton.mpr rfl)).1⟩

/-! C4 concrete data: one response carrying two models with the same reset
text and numerically equal fractions of different types (`0` and `0.0`). -/

def entry41 : PyVal :=
  PyVal.dict
    [(kQuotaInfo, PyVal.dict
        [(kRemainingFraction, PyVal.int 0), (kResetTime, PyVal.str ("R"))]),
     (kLabel, PyVal.str ("X"))]

def entry42 : PyVal :=
  PyVal.dict
    [(kQuotaInfo, PyVal.dict
        [(kRemainingFraction, PyVal.num 0), (kResetTime, PyVal.str ("R"))]),
     (kLabel, PyVal.str ("Y"))]

def data4 : PyVal :=
  PyVal.dict
    [(kUserStatus, PyVal.dict
        [(kCascadeModelConfigData, PyVal.dict
            [(kClientModelConfigs, PyVal.list [entry41, entry42])])])]

def m41 : ModelQuota :=
  { label := PyVal.str ("X"), model_id := PyVal.str ("unknown")
    remaining_fraction := PyVal.int 0, remaining_percentage := some 0
    used_percentage := some 100, is_exhausted := true
    reset_time_iso := PyVal.str ("R"), time_until_reset_ms := 0 }

def m42 : ModelQuota :=
  { label := PyVal.str ("Y"), model_id := PyVal.str ("unknown")
    remaining_fraction := PyVal.num 0, remaining_percentage := some 0
    used_percentage := some 100, is_exhausted := true
    reset_time_iso := PyVal.str ("R"), time_until_reset_ms := 0 }

def p41 : QuotaPool :=
  { name := PyVal.str ("X"), models := [m41], model_count := 1
    remaining_fraction := PyVal.int 0, remaining_percentage := some 0
    used_percentage := some 100, is_exhausted := true
    reset_time_iso := PyVal.str ("R"), time_until_reset_ms := 0 }

def p42 : QuotaPool :=
  { name := PyVal.str ("Y"), models := [m42], model_count := 1
    remaining_fraction := PyVal.num 0, remaining_percentage := some 0
    used_percentage := some 100, is_exhausted := true
    reset_time_iso := PyVal.str ("R"), time_until_reset_ms := 0 }

def rep4 : Report :=
  { timestamp := "t", plan_name := PyVal.str ("Unknown"), plan_tier := PyVal.str ("")
    prompt_credits := Option.none, flow_credits := Option.none
    models := [m41, m42], pools := [p41, p42]
    user_name := PyVal.str (""), user_email := PyVal.str ("") }

/-- C4 counterexample: two models with equal reset texts and numerically
equal remaining fractions (Python `0 == 0.0`) land in different pools,
because the grouping key uses the textual representations and
`str(0) = "0"` differs from `str(0.0) = "0.0"`. -/
theorem pool_grouping_counterexample :
    parse_quota_response pt0 0 ("t") data4 = Except.ok rep4 ∧
    m41 ∈ rep4.models ∧ m42 ∈ rep4.models ∧
    m41.reset_time_iso = m42.reset_time_iso ∧
    asNum m41.remaining_fraction = some 0 ∧
    asNum m42.remaining_fraction = some 0 ∧
    ¬ samePool rep4 m41 m42 := by
  refine ⟨by with_unfolding_all rfl, by simp [rep4], by simp [rep4], rfl,
    by with_unfolding_all rfl, rfl, ?_⟩
  rintro ⟨p, hp, h1, h2⟩
  have hp' : p = p41 ∨ p = p42 := by simpa [rep4] using hp
  rcases hp' with rfl | rfl
  · have he : m42 = m41 := by simpa [p41] using h2
    have hc := congrArg ModelQuota.remaining_fraction he
    simp [m41, m42] at hc
  · have he : m41 = m42 := by simpa [p42] using h1
    have hc := congrArg ModelQuota.remaining_fraction he
    simp [m41, m42] at hc

/-- C4 amended: in every successful report two models are co-pooled iff
the `str()` texts of their reset times agree and the `str()` texts of
their remaining fractions agree; numerically equal fractions of different
types (int 0 versus float 0.0) print differently and are therefore NOT
co-pooled. -/
theorem pool_grouping_amended :
    ∀ (pt : String → Option ℚ) (now : ℚ) (nowIso : String) (data : PyVal) (rep : Report),
      parse_quota_response pt now nowIso data = Except.ok rep →
      ∀ m1 ∈ rep.models, ∀ m2 ∈ rep.models,
        (samePool rep m1 m2 ↔
          (pyStrChars m1.reset_time_iso = pyStrChars m2.reset_time_iso ∧
           pyStrChars m1.remaining_fraction = pyStrChars m2.remaining_fraction)) :=
  fun _pt _now _nowIso _data _rep h _m1 hm1 _m2 hm2 => samePool_iff_fields h hm1 hm2

/-- C4 amended witness: the co-pooling criterion applied to the concrete
two-model report; the two models disagree on the fraction text, hence do
not share a pool. -/
theorem pool_grouping_amended_witness :
    (samePool rep4 m41 m42 ↔
      (pyStrChars m41.reset_time_iso = pyStrChars m42.reset_time_iso ∧
       pyStrChars m41.remaining_fraction = pyStrChars m42.remaining_fraction)) :=
  pool_grouping_amended pt0 0 ("t") data4 rep4 (by with_unfolding_all rfl)
    m41 (by simp [rep4]) m42 (by simp [rep4])

/-! C7 concrete data: two models with equal sort keys but different reset
texts, inserted in the two possible orders. -/

def entry7x : PyVal :=
  PyVal.dict
    [(kQuotaInfo, PyVal.dict
        [(kRemainingFraction, PyVal.num (1/2)), (kResetTime, PyVal.str ("a"))]),
     (kLabel, PyVal.str ("X"))]

def entry7y : PyVal :=
  PyVal.dict
    [(kQuotaInfo, PyVal.dict
        [(kRemainingFraction, PyVal.num (1/2)), (kResetTime, PyVal.str ("b"))]),
     (kLabel, PyVal.str ("Y"))]

def data7a : PyVal :=
  PyVal.dict
    [(kUserStatus, PyVal.dict
        [(kCascadeModelConfigData, PyVal.dict
            [(kClientModelConfigs, PyVal.list [entry7x, entry7y])])])]

def data7b : PyVal :=
  PyVal.dict
    [(kUserStatus, PyVal.dict
        [(kCascadeModelConfigData, PyVal.dict
            [(kClientModelConfigs, PyVal.list [entry7y, entry7x])])])]

def m7x : ModelQuota :=
  { label := PyVal.str ("X"), model_id := PyVal.str ("unknown")
    remaining_fraction := PyVal.num (1/2), remaining_percentage := some 50
    used_percentage := some 50, is_exhausted := false
    reset_time_iso := PyVal.str ("a"), time_until_reset_ms := 0 }

def m7y : ModelQuota :=
  { label := PyVal.str ("Y"), model_id := PyVal.str ("unknown")
    remaining_fraction := PyVal.num (1/2), remaining_percentage := some 50
    used_percentage := some 50, is_exhausted := false
    reset_time_iso := PyVal.str ("b"), time_until_reset_ms := 0 }

def p7x : QuotaPool :=
  { name := PyVal.str ("X"), models := [m7x], model_count := 1
    remaining_fraction := PyVal.num (1/2), remaining_percentage := some 50
    used_percentage := some 50, is_exhausted := false
    reset_time_iso := PyVal.str ("a"), time_until_reset_ms := 0 }

def p7y : QuotaPool :=
  { name := PyVal.str ("Y"), models := [m7y], model_count := 1
    remaining_fraction := PyVal.num (1/2), remaining_percentage := some 50
    used_percentage := some 50, is_exhausted := false
    reset_time_iso := PyVal.str ("b"), time_until_reset_ms := 0 }

def rep7a : Report :=
  { timestamp := "t", plan_name := PyVal.str ("Unknown"), plan_tier := PyVal.str ("")
    prompt_credits := Option.none, flow_credits := Option.none
    models := [m7x, m7y], pools := [p7x, p7y]
    user_name := PyVal.str (""), user_email := PyVal.str ("") }

def rep7b : Report :=
  { timestamp := "t", plan_name := PyVal.str ("Unknown"), plan_tier := PyVal.str ("")
    prompt_credits := Option.none, flow_credits := Option.none
    models := [m7y, m7x], pools := [p7y, p7x]
    user_name := PyVal.str (""), user_email := PyVal.str ("") }

/-- C7 counterexample: permuting the raw model entries (two models with
equal sort keys but different reset texts) permutes the output pool list,
so pool order is NOT invariant under permutation of the raw entries. -/
theorem pool_order_counterexample :
    parse_quota_response pt0 0 ("t") data7a = Except.ok rep7a ∧
    parse_quota_response pt0 0 ("t") data7b = Except.ok rep7b ∧
    List.Perm [entry7x, entry7y] [entry7y, entry7x] ∧
    rep7a.pools.map (fun p => p.name) = [PyVal.str ("X"), PyVal.str ("Y")] ∧
    rep7b.pools.map (fun p => p.name) = [PyVal.str ("Y"), PyVal.str ("X")] ∧
    rep7a.pools ≠ rep7b.pools := by
  refine ⟨by with_unfolding_all rfl, by with_unfolding_all rfl,
    List.Perm.swap entry7y entry7x [], rfl, rfl, ?_⟩
  intro h
  have hh : ([p7x, p7y] : List QuotaPool) = [p7y, p7x] := h
  simp [p7x, p7y] at hh

/-- C7 amended: in every successful report each model of the model list
belongs to exactly one pool (the groups partition the sorted models); the
order of the pool list, however, does depend on the insertion order of raw
entries with tied sort keys. -/
theorem pool_partition_amended :
    ∀ (pt : String → Option ℚ) (now : ℚ) (nowIso : String) (data : PyVal) (rep : Report),
      parse_quota_response pt now nowIso data = Except.ok rep →
      ∀ mq ∈ rep.models,
        ∃ p, (p ∈ rep.pools ∧ mq ∈ p.models) ∧
          ∀ p', (p' ∈ rep.pools ∧ mq ∈ p'.models) → p' = p := by
  intro pt now nowIso data rep h mq hmq
  rcases parse_quota_response_inv h with ⟨entries, ms, pools0, hms, hmodels, hpools0, hpools⟩
  have hpoolmem : ∀ p : QuotaPool, p ∈ rep.pools ↔ p ∈ pools0 := by
    intro p
    rw [hpools]
    exact (stableSortBy_perm plKey pools0).mem_iff
  rcases groupByKey_inv (stableSortBy mqKey ms) with ⟨_, hkeyed, _⟩
  rw [hmodels] at hmq
  rcases (groupByKey_mem (stableSortBy mqKey ms) mq).mpr hmq with ⟨g, hg, hmg⟩
  rcases mkPools_forall hpools0 hg with ⟨p, hok, hp0⟩
  rcases mkPool_models hok with ⟨hpm, _⟩
  refine ⟨p, ⟨(hpoolmem p).mpr hp0, by rw [hpm]; exact hmg⟩, ?_⟩
  rintro p' ⟨hp', hmp'⟩
  rcases (mkPools_mem hpools0 p').mp ((hpoolmem p').mp hp') with ⟨g', hg', hok'⟩
  rcases mkPool_models hok' with ⟨hpm', _⟩
  rw [hpm'] at hmp'
  have hkeq : g'.1 = g.1 := by
    rw [← hkeyed g' hg' mq hmp', ← hkeyed g hg mq hmg]
  have hgg : g' = g := groupByKey_key_unique hg' hg hkeq
  rw [hgg] at hok'
  have := hok.symm.trans hok'
  simpa using this.symm

/-- C7 amended witness: the exactly-one-pool guarantee applied to the
concrete single-model report. -/
theorem pool_partition_amended_witness :
    ∃ p, (p ∈ rep8.pools ∧ mq8 ∈ p.models) ∧
      ∀ p', (p' ∈ rep8.pools ∧ mq8 ∈ p'.models) → p' = p :=
  pool_partition_amended pt0 0 ("t") data8 rep8 (by with_unfolding_all rfl) mq8
    (List.mem_singleton.mpr rfl)

/-! C9: pool naming. -/

theorem addFam_nodup {acc : List String} {f : String} (h : acc.Nodup) :
    (addFam acc f).Nodup := by
  unfold addFam
  split
  · exact h
  · rename_i hnot
    simpa [List.nodup_append] using ⟨h, hnot⟩

theorem addFam_mem {acc : List String} {f x : String} :
    x ∈ addFam acc f ↔ x ∈ acc ∨ x = f := by
  unfold addFam
  split
  · rename_i hf
    constructor
    · exact Or.inl
    · rintro (hx | rfl)
      · exact hx
      · exact hf
  · simp

theorem famList_go {labels : List PyVal} {acc fams : List String}
    (h : famList labels acc = Except.ok fams) :
    (acc.Nodup → fams.Nodup) ∧
    (∀ f, f ∈ fams ↔ f ∈ acc ∨ ∃ l ∈ labels, famOf l = Except.ok f) := by
  induction labels generalizing acc with
  | nil =>
    simp only [famList, Except.ok.injEq] at h
    subst h
    exact ⟨fun hn => hn, fun f => by simp⟩
  | cons l ls ih =>
    simp only [famList] at h
    rcases hf : famOf l with _ | f0 <;> rw [hf] at h
    · exact absurd h (by simp)
    · rcases ih h with ⟨hnd, hmem⟩
      refine ⟨fun hn => hnd (addFam_nodup hn), ?_⟩
      intro f
      rw [hmem f, addFam_mem]
      constructor
      · rintro ((hx | rfl) | ⟨l', hl', hf'⟩)
        · exact Or.inl hx
        · exact Or.inr ⟨l, by simp, hf⟩
        · exact Or.inr ⟨l', List.mem_cons_of_mem _ hl', hf'⟩
      · rintro (hx | ⟨l', hl', hf'⟩)
        · exact Or.inl (Or.inl hx)
        · rcases List.mem_cons.mp hl' with rfl | hltl
          · rw [hf] at hf'
            have hev : f0 = f := by simpa using hf'
            exact Or.inl (Or.inr hev.symm)
          · exact Or.inr ⟨l', hltl, hf'⟩

/-- C9: pool naming.  A single-member pool is named by its member's label.
Otherwise the family set is computed per label (known families first,
case-insensitively, else the first token), duplicate-free and containing
exactly the families of the labels; one distinct family names the pool
"Family Models", two or three give the alphabetically sorted families
joined by " / " (the sort being an ordered permutation under the
code-point order), and more than three give "Premium Models"; with the two
concrete examples of the specification. -/
theorem pool_naming_spec :
    (∀ l : PyVal, derive_pool_name [l] = Except.ok l) ∧
    (∀ (labels : List PyVal) (fams : List String),
      famList labels [] = Except.ok fams →
      fams.Nodup ∧ (∀ f, f ∈ fams ↔ ∃ l ∈ labels, famOf l = Except.ok f)) ∧
    (∀ (labels : List PyVal) (fams : List String),
      labels.length ≠ 1 →
      famList labels [] = Except.ok fams →
      ((∀ f, fams = [f] →
          derive_pool_name labels = Except.ok (PyVal.str (f ++ " Models"))) ∧
       (2 ≤ fams.length → fams.length ≤ 3 →
          derive_pool_name labels =
            Except.ok (PyVal.str
              (String.intercalate (" / ") (sortStrings fams) ++ " Models"))) ∧
       (3 < fams.length →
          derive_pool_name labels = Except.ok (PyVal.str ("Premium Models"))))) ∧
    (∀ l : List String,
      (sortStrings l).Sorted (fun a b : String => a ≤ b) ∧ (sortStrings l).Perm l) ∧
    derive_pool_name [PyVal.str ("Claude 3 Opus"), PyVal.str ("Claude 3 Sonnet")] =
      Except.ok (PyVal.str ("Claude Models")) ∧
    derive_pool_name [PyVal.str ("Claude X"), PyVal.str ("Gemini Y")] =
      Except.ok (PyVal.str ("Claude / Gemini Models")) := by
  have hsorted : ∀ l : List String,
      (sortStrings l).Sorted (fun a b : String => a ≤ b) ∧ (sortStrings l).Perm l :=
    fun l => ⟨List.sorted_insertionSort _ l, List.perm_insertionSort _ l⟩
  refine ⟨fun l => rfl, ?_, ?_, hsorted, by with_unfolding_all rfl,
    by with_unfolding_all rfl⟩
  · intro labels fams hfl
    rcases famList_go hfl with ⟨hnd, hmem⟩
    refine ⟨hnd (by simp), ?_⟩
    intro f
    rw [hmem f]
    simp
  · intro labels fams hlen hfl
    refine ⟨?_, ?_, ?_⟩
    · rintro f rfl
      rcases labels with _ | ⟨l1, ls⟩
      · simp [famList] at hfl
      · rcases ls with _ | ⟨l2, ls⟩
        · exact absurd rfl hlen
        · unfold derive_pool_name
          rw [hfl]
    · intro h2 h3
      rcases labels with _ | ⟨l1, ls⟩
      · simp only [famList, Except.ok.injEq] at hfl
        rw [← hfl] at h2
        exact absurd h2 (by simp)
      · rcases ls with _ | ⟨l2, ls⟩
        · exact absurd rfl hlen
        · rcases fams with _ | ⟨f1, fs⟩
          · exact absurd h2 (by simp)
          · rcases fs with _ | ⟨f2, fs⟩
            · exact absurd h2 (by simp)
            · unfold derive_pool_name
              rw [hfl]
              simp only []
              rw [if_pos]
              rw [(hsorted (f1 :: f2 :: fs)).2.length_eq]
              exact h3
    · intro h4
      rcases labels with _ | ⟨l1, ls⟩
      · simp only [famList, Except.ok.injEq] at hfl
        rw [← hfl] at h4
        exact absurd h4 (by simp)
      · rcases ls with _ | ⟨l2, ls⟩
        · exact absurd rfl hlen
        · rcases fams with _ | ⟨f1, fs⟩
          · exact absurd h4 (by simp)
          · rcases fs with _ | ⟨f2, fs⟩
            · exact absurd h4 (by simp)
            · unfold derive_pool_name
              rw [hfl]
              simp only []
              rw [if_neg]
              rw [(hsorted (f1 :: f2 :: fs)).2.length_eq]
              omega

/-- C9 witness: the family-set characterization applied to the concrete
label pair Claude X / Gemini Y. -/
theorem pool_naming_spec_witness :
    (["Claude", "Gemini"] : List String).Nodup ∧
    (∀ f, f ∈ (["Claude", "Gemini"] : List String) ↔
      ∃ l ∈ [PyVal.str ("Claude X"), PyVal.str ("Gemini Y")],
        famOf l = Except.ok f) :=
  pool_naming_spec.2.1 [PyVal.str ("Claude X"), PyVal.str ("Gemini Y")]
    (["Claude", "Gemini"]) (by with_unfolding_all rfl)

/-! C1, C2, C10: the connection manager and the route. -/

/-- A concrete connection for instantiating the manager claims. -/
def connA : Conn := { port := 1, csrf_token := "tok", pid := 2, extension_port := 3 }

/-- A second concrete connection (the re-detected one). -/
def connB : Conn := { port := 4, csrf_token := "tok2", pid := 5, extension_port := 6 }

/-- C2 counterexample: calling `invalidate_connection` on a state with a
live client discards the connection but leaves the client alive - it does
not end in the torn-down-client state the claim asserts. -/
theorem invalidate_counterexample :
    invalidate_connection { connection := some connA, clientLive := true } =
      { connection := Option.none, clientLive := true } ∧
    invalidate_connection { connection := some connA, clientLive := true } ≠
      { connection := Option.none, clientLive := false } := by
  refine ⟨rfl, ?_⟩
  intro h
  have hc := congrArg MgrState.clientLive h
  simp [invalidate_connection] at hc

/-- C2 amended: `invalidate_connection` clears only the connection slot
and never touches the client; tearing down both is what `reset` does. -/
theorem invalidate_amended :
    ∀ s : MgrState,
      (invalidate_connection s).connection = Option.none ∧
      (invalidate_connection s).clientLive = s.clientLive ∧
      mgrReset s = { connection := Option.none, clientLive := false } :=
  fun _s => ⟨rfl, rfl, rfl⟩

/-- The failing script: detection succeeds, both fetches raise. -/
def script1 : Script :=
  { detect1 := { found := some connA, touched := true }
    fetch1 := Except.error ("boom1")
    detect2 := { found := some connB, touched := true }
    fetch2 := Except.error ("boom2") }

/-- The empty manager state. -/
def mgr0 : MgrState := { connection := Option.none, clientLive := false }

/-- C1 counterexample: after two consecutive fetch failures (with a
successful re-detection in between) the route answers the RemoteError
outcome with the second cause, but the cache is NOT fully cleared: it
still holds the re-detected connection and a live client. -/
theorem retry_state_counterexample :
    (api_quota pt0 0 ("t") script1 mgr0).1 =
      ApiResult.remoteError ("Quota fetch failed: boom2") ∧
    (api_quota pt0 0 ("t") script1 mgr0).2 =
      { connection := some connB, clientLive := true } ∧
    (api_quota pt0 0 ("t") script1 mgr0).2 ≠ mgr0 := by
  refine ⟨rfl, rfl, ?_⟩
  intro h
  have hc := congrArg MgrState.clientLive h
  simp [api_quota, script1, mgr0, get_connection, runAttempt, mgrReset] at hc

/-- C1 amended: when the first lookup finds a connection, the first fetch
raises with `e1`, the post-reset re-detection finds a connection `c` and
the second fetch raises with `e2`, the route returns the RemoteError
outcome carrying `e2`, and the cache ends holding the re-detected
connection `c` together with a live client (only the intermediate `reset`
cleared it; nothing clears it after the second failure). -/
theorem retry_failure_amended :
    ∀ (pt : String → Option ℚ) (now : ℚ) (nowIso : String) (sc : Script)
      (s0 : MgrState) (c : Conn) (e1 e2 : String),
      (get_connection s0 sc.detect1).1.isSome = true →
      sc.fetch1 = Except.error e1 →
      sc.detect2.found = some c →
      sc.fetch2 = Except.error e2 →
      api_quota pt now nowIso sc s0 =
        (ApiResult.remoteError ("Quota fetch failed: " ++ e2),
         { connection := some c, clientLive := true }) := by
  intro pt now nowIso sc s0 c e1 e2 h1 hf1 hd2 hf2
  unfold api_quota
  rcases hc1 : (get_connection s0 sc.detect1).1 with _ | c1
  · rw [hc1] at h1
    exact absurd h1 (by simp)
  · simp only [runAttempt, hf1]
    have hg2 : get_connection (mgrReset { (get_connection s0 sc.detect1).2 with
        clientLive := true }) sc.detect2 =
        (sc.detect2.found,
         { connection := sc.detect2.found, clientLive := sc.detect2.touched }) := by
      simp [get_connection, mgrReset]
    rw [hg2, hd2]
    simp only [runAttempt, hf2]
    rw [hc1]

/-- C1 amended witness: the amended guarantee at the concrete failing
script. -/
theorem retry_failure_amended_witness :
    api_quota pt0 0 ("t") script1 mgr0 =
      (ApiResult.remoteError ("Quota fetch failed: " ++ "boom2"),
       { connection := some connB, clientLive := true }) :=
  retry_failure_amended pt0 0 ("t") script1 mgr0 connB ("boom1") ("boom2")
    rfl rfl rfl rfl

/-- Inverting a 503 answer: it can only arise from an empty initial
lookup, and its message is the fixed "not found" text. -/
theorem api_quota_notFound_inv {pt : String → Option ℚ} {now : ℚ} {nowIso : String}
    {sc : Script} {s0 : MgrState} {msg : String}
    (h : (api_quota pt now nowIso sc s0).1 = ApiResult.notFound msg) :
    (get_connection s0 sc.detect1).1 = Option.none ∧
    msg = ("Language Server not found. Is Antigravity running?") := by
  simp only [api_quota] at h
  rcases hc1 : (get_connection s0 sc.detect1).1 with _ | c1 <;> rw [hc1] at h
  · simp only [] at h
    exact ⟨rfl, (ApiResult.notFound.inj h).symm⟩
  · exfalso
    simp only [] at h
    rcases ha1 : (runAttempt pt now nowIso sc.fetch1
        (get_connection s0 sc.detect1).2).1 with e1 | rep <;> rw [ha1] at h
    · simp only [] at h
      rcases hc2 : (get_connection
          (mgrReset (runAttempt pt now nowIso sc.fetch1
            (get_connection s0 sc.detect1).2).2) sc.detect2).1 with _ | c2 <;>
          rw [hc2] at h
      · simp at h
      · simp only [] at h
        rcases ha2 : (runAttempt pt now nowIso sc.fetch2
            (get_connection
              (mgrReset (runAttempt pt now nowIso sc.fetch1
                (get_connection s0 sc.detect1).2).2) sc.detect2).2).1 with e2 | rep <;>
            rw [ha2] at h
        · simp at h
        · simp at h
    · simp at h

/-- C10: the 503 "not found" outcome occurs exactly when the initial
lookup (cached connection or first detection pass) yields no connection;
and whenever a connection was found but the first fetch raised with `e1`
and the post-reset re-detection found nothing, the route answers the 500
"Quota fetch failed" outcome carrying the first failure's message - never
the 503. -/
theorem notfound_spec :
    ∀ (pt : String → Option ℚ) (now : ℚ) (nowIso : String) (sc : Script) (s0 : MgrState),
      ((api_quota pt now nowIso sc s0).1 =
          ApiResult.notFound ("Language Server not found. Is Antigravity running?") ↔
        (get_connection s0 sc.detect1).1 = Option.none) ∧
      (∀ msg, (api_quota pt now nowIso sc s0).1 = ApiResult.notFound msg →
        (get_connection s0 sc.detect1).1 = Option.none) ∧
      (∀ e1, (get_connection s0 sc.detect1).1.isSome = true →
        sc.fetch1 = Except.error e1 →
        sc.detect2.found = Option.none →
        (api_quota pt now nowIso sc s0).1 =
          ApiResult.remoteError ("Quota fetch failed: " ++ e1)) := by
  intro pt now nowIso sc s0
  refine ⟨⟨fun h => (api_quota_notFound_inv h).1, ?_⟩,
    fun msg h => (api_quota_notFound_inv h).1, ?_⟩
  · intro hc1
    simp only [api_quota]
    rw [hc1]
  · intro e1 h1 hf1 hd2
    rcases hc1 : (get_connection s0 sc.detect1).1 with _ | c1
    · rw [hc1] at h1
      exact absurd h1 (by simp)
    · simp only [api_quota]
      rw [hc1]
      simp only [runAttempt, hf1]
      have hg2 : get_connection (mgrReset { (get_connection s0 sc.detect1).2 with
          clientLive := true }) sc.detect2 =
          (sc.detect2.found,
           { connection := sc.detect2.found, clientLive := sc.detect2.touched }) := by
        simp [get_connection, mgrReset]
      rw [hg2, hd2]

/-- A script whose detection succeeds, whose first fetch raises and whose
re-detection finds nothing. -/
def script10 : Script :=
  { detect1 := { found := some connA, touched := true }
    fetch1 := Except.error ("boomA")
    detect2 := { found := Option.none, touched := true }
    fetch2 := Except.ok (PyVal.dict []) }

/-- C10 witness: failed re-detection after a fetch failure answers the 500
outcome carrying the first failure's message. -/
theorem notfound_spec_witness :
    (api_quota pt0 0 ("t") script10 mgr0).1 =
      ApiResult.remoteError ("Quota fetch failed: " ++ "boomA") :=
  (notfound_spec pt0 0 ("t") script10 mgr0).2.2 ("boomA") rfl rfl rfl

/-! C3: totality of normalization on well-typed input, and the concrete
raising input. -/

theorem isOk_exists {A : Type} {x : Except String A} (h : x.isOk = true) :
    ∃ a, x = Except.ok a := by
  rcases x with e | a
  · exact absurd h (by simp [Except.isOk, Except.toBool])
  · exact ⟨a, rfl⟩

theorem bind_isOk_of {A B : Type} {x : Except String A} {f : A → Except String B}
    {a : A} (hx : x = Except.ok a) (hf : ((f a).isOk) = true) :
    ((x >>= f).isOk) = true := by
  subst hx
  simpa [Bind.bind, Except.bind] using hf

theorem parse_credit_block_wf_ok {mv av : PyVal} (hm : wfCreditVal mv = true)
    (ha : wfCreditVal av = true) :
    (parse_credit_block mv av).isOk = true := by
  rcases mv with _ | b | n | q | s | xs | kvs
  case bool => simp [wfCreditVal] at hm
  case num => simp [wfCreditVal] at hm
  case str => simp [wfCreditVal] at hm
  case list => simp [wfCreditVal] at hm
  case dict => simp [wfCreditVal] at hm
  case noneV =>
    unfold parse_credit_block
    rw [if_pos (Or.inl (by simp [truthy]))]
    rfl
  case int =>
    rcases av with _ | b | a | q | s | xs | kvs
    case bool => simp [wfCreditVal] at ha
    case num => simp [wfCreditVal] at ha
    case str => simp [wfCreditVal] at ha
    case list => simp [wfCreditVal] at ha
    case dict => simp [wfCreditVal] at ha
    case noneV =>
      unfold parse_credit_block
      rw [if_pos (Or.inr (by simp [isNoneV]))]
      rfl
    case int =>
      by_cases hg : (¬ truthy (PyVal.int n) = true ∨ isNoneV (PyVal.int a) = true)
      · unfold parse_credit_block
        rw [if_pos hg]
        rfl
      · unfold parse_credit_block
        rw [if_neg hg]
        simp only [pyInt]
        by_cases hn : n = 0
        · rw [if_pos hn]
          rfl
        · rw [if_neg hn]
          rfl

theorem famOf_wf_ok {l : PyVal} (hl : goodLabel l = true) : (famOf l).isOk = true := by
  rcases l with _ | b | n | q | s | xs | kvs <;> simp [goodLabel] at hl
  simp only [famOf]
  split
  · rfl
  · split
    · rfl
    · split
      · rfl
      · rcases hsp : pySplit s with _ | ⟨t, ts⟩
        · exact absurd hsp hl
        · rfl

theorem famList_wf_ok {labels : List PyVal}
    (h : ∀ l ∈ labels, (famOf l).isOk = true) :
    ∀ acc, (famList labels acc).isOk = true := by
  induction labels with
  | nil => intro acc; rfl
  | cons l ls ih =>
    intro acc
    have hl := h l (by simp)
    rcases isOk_exists hl with ⟨f, hf⟩
    simp only [famList, hf]
    exact ih (fun l' hl' => h l' (List.mem_cons_of_mem _ hl')) (addFam acc f)

theorem derive_pool_name_wf_ok {labels : List PyVal}
    (h : ∀ l ∈ labels, goodLabel l = true) :
    (derive_pool_name labels).isOk = true := by
  rcases labels with _ | ⟨l1, ls⟩
  · rfl
  · rcases ls with _ | ⟨l2, ls⟩
    · rfl
    · have hfl : (famList (l1 :: l2 :: ls) []).isOk = true :=
        famList_wf_ok (fun l hl => famOf_wf_ok (h l hl)) []
      rcases isOk_exists hfl with ⟨fams, hfams⟩
      unfold derive_pool_name
      rw [hfams]
      rcases fams with _ | ⟨f1, fs⟩
      · simp only []
        split <;> rfl
      · rcases fs with _ | ⟨f2, fs⟩
        · rfl
        · simp only []
          split <;> rfl

theorem pctPair_wf_some {v : PyVal} (hv : wfFraction v = true) :
    ∃ pcts, pctPair v = some pcts := by
  rcases v with _ | b | n | q | s | xs | kvs <;> simp_all [wfFraction, pctPair, asNum]

theorem parseModelEntry_wf_ok {pt : String → Option ℚ} {now : ℚ} {m : PyVal}
    (hm : wfEntry m = true) : (parseModelEntry pt now m).isOk = true := by
  rcases m with _ | b | n | q | s | xs | kvs
  case noneV => simp [wfEntry] at hm
  case bool => simp [wfEntry] at hm
  case int => simp [wfEntry] at hm
  case num => simp [wfEntry] at hm
  case str => simp [wfEntry] at hm
  case list => simp [wfEntry] at hm
  simp only [wfEntry] at hm
  by_cases hq : truthy (dictGet kvs kQuotaInfo PyVal.noneV) = false
  · simp only [parseModelEntry, pyGet]
    rw [if_pos hq]
    rfl
  · have htr : truthy (dictGet kvs kQuotaInfo PyVal.noneV) = true := by
      rcases h : truthy (dictGet kvs kQuotaInfo PyVal.noneV)
      · exact absurd h hq
      · rfl
    rw [if_pos htr] at hm
    rcases hqi : dictGet kvs kQuotaInfo PyVal.noneV with _ | _ | _ | _ | _ | _ | qkvs <;>
        rw [hqi] at hm <;> simp only [] at hm
    · simp at hm
    · simp at hm
    · simp at hm
    · simp at hm
    · simp at hm
    · simp at hm
    · simp only [Bool.and_eq_true] at hm
      rcases hm with ⟨⟨hfr, hlab⟩, hmoa⟩
      rcases pctPair_wf_some hfr with ⟨pcts, hpcts⟩
      rcases hmo : dictGet kvs kModelOrAlias (PyVal.dict []) with
          _ | _ | _ | _ | _ | _ | mkvs <;> rw [hmo] at hmoa
      · simp [isDict] at hmoa
      · simp [isDict] at hmoa
      · simp [isDict] at hmoa
      · simp [isDict] at hmoa
      · simp [isDict] at hmoa
      · simp [isDict] at hmoa
      · have htr' : truthy (PyVal.dict qkvs) = true := hqi ▸ htr
        simp [parseModelEntry, pyGet, hqi, hpcts, hmo, htr']
        rfl

theorem parseModels_wf_ok {pt : String → Option ℚ} {now : ℚ} {entries : List PyVal}
    (h : ∀ e ∈ entries, wfEntry e = true) :
    (parseModels pt now entries).isOk = true := by
  induction entries with
  | nil => rfl
  | cons e rest ih =>
    have he : (parseModelEntry pt now e).isOk = true :=
      parseModelEntry_wf_ok (h e (by simp))
    rcases isOk_exists he with ⟨r, hr⟩
    have hrest := ih (fun e' he' => h e' (List.mem_cons_of_mem _ he'))
    rcases isOk_exists hrest with ⟨ms, hms⟩
    simp only [parseModels, hr, hms]
    rcases r with _ | mq
    · rw [hms] at hrest
      simpa using hrest
    · rfl

theorem parseModels_goodLabels {pt : String → Option ℚ} {now : ℚ}
    {entries : List PyVal} {ms : List ModelQuota}
    (hms : parseModels pt now entries = Except.ok ms)
    (hwf : ∀ e ∈ entries, wfEntry e = true) :
    ∀ mq ∈ ms, goodLabel mq.label = true := by
  intro mq hmq
  rcases parseModels_mem hms hmq with ⟨e, he, hok⟩
  rcases parseModelEntry_inv hok with ⟨kvs, pcts, rfl, _, _, _, _, hlab, hqi⟩
  have hwfe := hwf _ he
  simp only [wfEntry, if_pos hqi] at hwfe
  rcases hqik : dictGet kvs kQuotaInfo PyVal.noneV with _ | _ | _ | _ | _ | _ | qkvs <;>
      rw [hqik] at hwfe
  · simp at hwfe
  · simp at hwfe
  · simp at hwfe
  · simp at hwfe
  · simp at hwfe
  · simp at hwfe
  · have hwfe' : (wfFraction (dictGet qkvs kRemainingFraction PyVal.noneV) &&
        goodLabel (dictGet kvs kLabel (PyVal.str ("Unknown"))) &&
        isDict (dictGet kvs kModelOrAlias (PyVal.dict []))) = true := hwfe
    simp only [Bool.and_eq_true] at hwfe'
    rw [hlab]
    exact hwfe'.1.2

theorem mkPools_wf_ok {gs : List (String × List ModelQuota)}
    (hne : ∀ g ∈ gs, g.2 ≠ [])
    (hlab : ∀ g ∈ gs, ∀ m ∈ g.2, goodLabel m.label = true) :
    (mkPools gs).isOk = true := by
  induction gs with
  | nil => rfl
  | cons g gs ih =>
    have hg : (mkPool g).isOk = true := by
      unfold mkPool
      rcases hgm : g.2 with _ | ⟨first, rest⟩
      · exact absurd hgm (hne g (by simp))
      · have hd : (derive_pool_name ((first :: rest).map
            (fun m => m.label))).isOk = true := by
          apply derive_pool_name_wf_ok
          intro l hl
          rcases List.mem_map.mp hl with ⟨m, hm, rfl⟩
          exact hlab g (by simp) m (hgm ▸ hm)
        rcases isOk_exists hd with ⟨nm, hnm⟩
        rw [hnm]
        rfl
    rcases isOk_exists hg with ⟨p, hp⟩
    have hrest := ih (fun g' hg' => hne g' (List.mem_cons_of_mem _ hg'))
      (fun g' hg' => hlab g' (List.mem_cons_of_mem _ hg'))
    rcases isOk_exists hrest with ⟨ps, hps⟩
    simp only [mkPools, hp, hps]
    rfl

/-- C3 amended: normalization never raises on a well-typed raw response
(every field either missing - degrading to its default - or of the type
the code expects); outside that domain a single malformed value, for
example a non-numeric `remainingFraction` in one model entry, aborts the
whole normalization, so one bad entry does blank the entire report. -/
theorem normalize_wf_total :
    ∀ (pt : String → Option ℚ) (now : ℚ) (nowIso : String) (data : PyVal),
      wfRaw data = true →
      (parse_quota_response pt now nowIso data).isOk = true := by
  intro pt now nowIso data hwf
  rcases data with _ | b | n | q | s | xs | dkvs
  case noneV => simp [wfRaw] at hwf
  case bool => simp [wfRaw] at hwf
  case int => simp [wfRaw] at hwf
  case num => simp [wfRaw] at hwf
  case str => simp [wfRaw] at hwf
  case list => simp [wfRaw] at hwf
  simp only [wfRaw] at hwf
  rcases hus : dictGet dkvs kUserStatus (PyVal.dict []) with _ | _ | _ | _ | _ | _ | ukvs <;>
      rw [hus] at hwf <;> simp only [] at hwf
  · simp at hwf
  · simp at hwf
  · simp at hwf
  · simp at hwf
  · simp at hwf
  · simp at hwf
  rcases hps : dictGet ukvs kPlanStatus (PyVal.dict []) with _ | _ | _ | _ | _ | _ | pskvs <;>
      rw [hps] at hwf <;> simp only [] at hwf
  · simp at hwf
  · simp at hwf
  · simp at hwf
  · simp at hwf
  · simp at hwf
  · simp at hwf
  simp only [Bool.and_eq_true] at hwf
  rcases hwf with ⟨hcred, hmods⟩
  rcases hpi : dictGet pskvs kPlanInfo (PyVal.dict []) with _ | _ | _ | _ | _ | _ | pikvs <;>
      rw [hpi] at hcred <;> simp only [] at hcred
  · simp at hcred
  · simp at hcred
  · simp at hcred
  · simp at hcred
  · simp at hcred
  · simp at hcred
  rcases hcm : dictGet ukvs kCascadeModelConfigData (PyVal.dict []) with
      _ | _ | _ | _ | _ | _ | ckvs <;>
      rw [hcm] at hmods <;> simp only [] at hmods
  · simp at hmods
  · simp at hmods
  · simp at hmods
  · simp at hmods
  · simp at hmods
  · simp at hmods
  rcases hcl : dictGet ckvs kClientModelConfigs (PyVal.list []) with
      _ | _ | _ | _ | _ | entries | _ <;>
      rw [hcl] at hmods <;> simp only [] at hmods
  · simp at hmods
  · simp at hmods
  · simp at hmods
  · simp at hmods
  · simp at hmods
  rotate_left 1
  · simp at hmods
  simp only [Bool.and_eq_true] at hcred
  rcases hcred with ⟨⟨⟨hmpc, hapc⟩, hmfc⟩, hafc⟩
  have hentries : ∀ e ∈ entries, wfEntry e = true := by
    intro e he
    exact List.all_eq_true.mp hmods e he
  unfold parse_quota_response
  apply bind_isOk_of (show pyGet (PyVal.dict dkvs) kUserStatus (PyVal.dict []) =
    Except.ok (PyVal.dict ukvs) from by simp [pyGet, hus])
  apply bind_isOk_of (show pyGet (PyVal.dict ukvs) kPlanStatus (PyVal.dict []) =
    Except.ok (PyVal.dict pskvs) from by simp [pyGet, hps])
  apply bind_isOk_of (show pyGet (PyVal.dict pskvs) kPlanInfo (PyVal.dict []) =
    Except.ok (PyVal.dict pikvs) from by simp [pyGet, hpi])
  apply bind_isOk_of (show pyGet (PyVal.dict pikvs) kMonthlyPromptCredits PyVal.noneV =
    Except.ok (dictGet pikvs kMonthlyPromptCredits PyVal.noneV) from rfl)
  apply bind_isOk_of (show pyGet (PyVal.dict pskvs) kAvailablePromptCredits PyVal.noneV =
    Except.ok (dictGet pskvs kAvailablePromptCredits PyVal.noneV) from rfl)
  have hpc : (parse_credit_block (dictGet pikvs kMonthlyPromptCredits PyVal.noneV)
      (dictGet pskvs kAvailablePromptCredits PyVal.noneV)).isOk = true :=
    parse_credit_block_wf_ok hmpc hapc
  rcases isOk_exists hpc with ⟨pc, hpc'⟩
  apply bind_isOk_of hpc'
  apply bind_isOk_of (show pyGet (PyVal.dict pikvs) kMonthlyFlowCredits PyVal.noneV =
    Except.ok (dictGet pikvs kMonthlyFlowCredits PyVal.noneV) from rfl)
  apply bind_isOk_of (show pyGet (PyVal.dict pskvs) kAvailableFlowCredits PyVal.noneV =
    Except.ok (dictGet pskvs kAvailableFlowCredits PyVal.noneV) from rfl)
  have hfc : (parse_credit_block (dictGet pikvs kMonthlyFlowCredits PyVal.noneV)
      (dictGet pskvs kAvailableFlowCredits PyVal.noneV)).isOk = true :=
    parse_credit_block_wf_ok hmfc hafc
  rcases isOk_exists hfc with ⟨fc, hfc'⟩
  apply bind_isOk_of hfc'
  apply bind_isOk_of (show pyGet (PyVal.dict ukvs) kCascadeModelConfigData (PyVal.dict []) =
    Except.ok (PyVal.dict ckvs) from by simp [pyGet, hcm])
  apply bind_isOk_of (show pyGet (PyVal.dict ckvs) kClientModelConfigs (PyVal.list []) =
    Except.ok (PyVal.list entries) from by simp [pyGet, hcl])
  apply bind_isOk_of (show pyIter (PyVal.list entries) = Except.ok entries from rfl)
  have hms : (parseModels pt now entries).isOk = true := parseModels_wf_ok hentries
  rcases isOk_exists hms with ⟨ms, hms'⟩
  apply bind_isOk_of hms'
  have hpools : (mkPools (groupByKey (stableSortBy mqKey ms))).isOk = true := by
    rcases groupByKey_inv (stableSortBy mqKey ms) with ⟨_, hkeyed, hne⟩
    apply mkPools_wf_ok hne
    intro g hg m hm
    have hmem : m ∈ stableSortBy mqKey ms :=
      (groupByKey_mem (stableSortBy mqKey ms) m).mp ⟨g, hg, hm⟩
    have : m ∈ ms := (stableSortBy_perm mqKey ms).mem_iff.mp hmem
    exact parseModels_goodLabels hms' hentries m this
  rcases isOk_exists hpools with ⟨pools0, hpools'⟩
  apply bind_isOk_of hpools'
  apply bind_isOk_of (show pyGet (PyVal.dict pikvs) kPlanName (PyVal.str ("Unknown")) =
    Except.ok (dictGet pikvs kPlanName (PyVal.str ("Unknown"))) from rfl)
  apply bind_isOk_of (show pyGet (PyVal.dict pikvs) kTeamsTier (PyVal.str ("")) =
    Except.ok (dictGet pikvs kTeamsTier (PyVal.str (""))) from rfl)
  apply bind_isOk_of (show pyGet (PyVal.dict ukvs) kName (PyVal.str ("")) =
    Except.ok (dictGet ukvs kName (PyVal.str (""))) from rfl)
  apply bind_isOk_of (show pyGet (PyVal.dict ukvs) kEmail (PyVal.str ("")) =
    Except.ok (dictGet ukvs kEmail (PyVal.str (""))) from rfl)
  rfl

/-- A fully well-formed model entry. -/
def entry3good : PyVal :=
  PyVal.dict
    [(kQuotaInfo, PyVal.dict
        [(kRemainingFraction, PyVal.num (1/4)), (kResetTime, PyVal.str ("R"))]),
     (kLabel, PyVal.str ("Good Model"))]

/-- An entry whose `remainingFraction` is a (non-numeric) string: present
but malformed. -/
def entry3bad : PyVal :=
  PyVal.dict [(kQuotaInfo, PyVal.dict [(kRemainingFraction, PyVal.str ("oops"))])]

def data3 : PyVal :=
  PyVal.dict
    [(kUserStatus, PyVal.dict
        [(kCascadeModelConfigData, PyVal.dict
            [(kClientModelConfigs, PyVal.list [entry3good, entry3bad])])])]

/-- C3 counterexample: a response holding one well-formed model entry and
one entry whose present `remainingFraction` is the string "oops" makes
normalization raise (`round()` on a string), so the whole report - the
good entry included - is lost: normalization does raise on malformed
sub-fields, and one bad model entry does blank the entire response. -/
theorem normalize_raises_counterexample :
    wfEntry entry3good = true ∧
    parse_quota_response pt0 0 ("t") data3 =
      Except.error ("TypeError: round() argument is not a number") ∧
    (parse_quota_response pt0 0 ("t") data3).isOk = false := by
  refine ⟨by with_unfolding_all rfl, by with_unfolding_all rfl, ?_⟩
  with_unfolding_all rfl

/-- C3 amended witness: totality applied at a concrete well-typed
response. -/
theorem normalize_wf_total_witness :
    wfRaw data8 = true ∧ (parse_quota_response pt0 0 ("t") data8).isOk = true :=
  ⟨by with_unfolding_all rfl,
   normalize_wf_total pt0 0 ("t") data8 (by with_unfolding_all rfl)⟩

end AQM

